import Mathlib

/-!
Verification of the ZONEMD zone-digest implementation (zonemd.py).

The development shallowly embeds the data model and the operations of the
source module: the ZONEMD record codec, the canonical ordering, the digest
stream, and the add/update/validate workflow.  Python byte strings are
`List Nat`, machine integers are `Nat` with explicit bounds where the source
would raise, fallible code returns `Except Err`, and the in-place mutation
performed by `validate_zonemd` is modelled by returning the resulting zone.
-/

/-- Byte strings are lists of natural numbers (each byte is < 256 where the
source guarantees it). -/
abbrev Bytes := List Nat

/-- ASCII case folding of a single byte, as done by name canonicalization. -/
def lowerByte (b : Nat) : Nat := if 65 ≤ b ∧ b ≤ 90 then b + 32 else b

/-- Three-way comparison of naturals, mirroring Python integer comparison. -/
def natCmp (a b : Nat) : Ordering := if a < b then .lt else if b < a then .gt else .eq

/-- Lexicographic three-way comparison of lists, mirroring Python sequence
comparison: first difference decides, a proper initial segment is smaller. -/
def listCmp (c : α → α → Ordering) : List α → List α → Ordering
  | [], [] => .eq
  | [], _ :: _ => .lt
  | _ :: _, [] => .gt
  | a :: as, b :: bs =>
    match c a b with
    | .eq => listCmp c as bs
    | o => o

/-- Non-strict order induced by a three-way comparator. -/
def cmpLe (c : α → α → Ordering) (a b : α) : Prop := c a b ≠ Ordering.gt

/-- Strict order induced by a three-way comparator. -/
def cmpLt (c : α → α → Ordering) (a b : α) : Prop := c a b = Ordering.lt

instance (c : α → α → Ordering) : DecidableRel (cmpLe c) :=
  fun a b => inferInstanceAs (Decidable (c a b ≠ Ordering.gt))

instance (c : α → α → Ordering) : DecidableRel (cmpLt c) :=
  fun a b => inferInstanceAs (Decidable (c a b = Ordering.lt))

/-- Comparator on byte strings (Python `bytes` comparison). -/
def bytesCmp : Bytes → Bytes → Ordering := listCmp natCmp

/-- A DNS name: its labels, leftmost (least significant) first, without the
trailing root label.  `Modelled from the spec:` the external zone model's name
type (dnspython `dns.name.Name`) is not part of the repository; spec section 3
describes it as a DNS name whose canonical form is all-lowercase and
wire-encoded without compression. -/
structure Name where
  labels : List Bytes
deriving DecidableEq, Repr

/-- Case folding of one label. -/
def lowerLabel (l : Bytes) : Bytes := l.map lowerByte

/-- The sort key of a name: its case-folded labels, rightmost (most
significant) label first.  `Modelled from the spec:` section 4.2 orders names
label-by-label starting from the rightmost label, ASCII-case-insensitively,
each label an unsigned byte string, shorter common-prefix name first; this is
exactly lexicographic order on this key. -/
def Name.lowerKey (n : Name) : List Bytes := (n.labels.map lowerLabel).reverse

/-- Comparator on name sort keys. -/
def keyCmp : List Bytes → List Bytes → Ordering := listCmp bytesCmp

/-- The canonical (section 4.2) non-strict order on names. -/
def nameLe (a b : Name) : Prop := cmpLe keyCmp a.lowerKey b.lowerKey

/-- The canonical (section 4.2) strict order on names. -/
def nameLt (a b : Name) : Prop := cmpLt keyCmp a.lowerKey b.lowerKey

instance : DecidableRel nameLe :=
  fun a b => inferInstanceAs (Decidable (cmpLe keyCmp a.lowerKey b.lowerKey))

instance : DecidableRel nameLt :=
  fun a b => inferInstanceAs (Decidable (cmpLt keyCmp a.lowerKey b.lowerKey))

/-- Python `min` over a list using a strict order: scan left to right, keep
the current minimum, replace it only by a strictly smaller element. -/
def listMin (lt : α → α → Prop) [DecidableRel lt] : List α → Option α
  | [] => none
  | x :: xs => some (xs.foldl (fun acc y => if lt y acc then y else acc) x)

/-- Canonical wire form of a name given its (case-folded, reversed) key:
each label rendered as length byte then label bytes, ending with the root
label (a zero byte). -/
def wireOfKey (k : List Bytes) : Bytes :=
  (k.reverse.flatMap (fun lab => lab.length :: lab)) ++ [0]

/-- Canonical wire form of a name (`name.canonicalize().to_wire()`). -/
def Name.canonWire (n : Name) : Bytes := wireOfKey n.lowerKey

/-- Big-endian 2-byte encoding (struct format `!H`); the source raises for
out-of-range values, which theorems exclude by hypothesis. -/
def pack16 (n : Nat) : Bytes := [n / 256 % 256, n % 256]

/-- Big-endian 4-byte encoding (struct format `!I`); the source raises for
out-of-range values, which theorems exclude by hypothesis. -/
def pack32 (n : Nat) : Bytes := [n / 16777216 % 256, n / 65536 % 256, n / 256 % 256, n % 256]

/-- Big-endian 4-byte decoding of the first four bytes of a list. -/
def unpack32 (l : Bytes) : Nat :=
  l.getD 0 0 * 16777216 + l.getD 1 0 * 65536 + l.getD 2 0 * 256 + l.getD 3 0

/-- The ZONEMD RDATA (class `ZONEMD` in the source).  The record class field
is not modelled: the source merely forwards it to the library base class. -/
structure ZONEMD where
  serial : Nat
  scheme : Nat
  algorithm : Nat
  digest : Bytes
deriving DecidableEq, Repr

/-- `ZONEMD.to_digestable`: `serial(4,BE) ++ scheme(1) ++ algorithm(1) ++ digest`. -/
def ZONEMD.toDigestable (z : ZONEMD) : Bytes :=
  pack32 z.serial ++ [z.scheme % 256, z.algorithm % 256] ++ z.digest

/-- `ZONEMD.to_wire` writes exactly the digestable bytes. -/
def ZONEMD.to_wire (z : ZONEMD) : Bytes := z.toDigestable

/-- Error kinds.  Codec and precondition failures raised by the source (or by
the hosting library calls it makes) are modelled as `Except.error` of one of
these; `malformedRecord` stands for any wire/text parse failure. -/
inductive Err where
  | unknownAlgorithm
  | malformedRecord
  | keyError
  | valueError
  | attributeError
  | indexError
  | nameError
deriving DecidableEq, Repr

/-- `ZONEMD.from_wire`: unpack `!IBB` from the first six bytes (raising when
fewer than six are available), the rest of the buffer is the digest. -/
def ZONEMD.from_wire (wire : Bytes) : Except Err ZONEMD :=
  if (wire.take 6).length < 6 then Except.error Err.malformedRecord
  else
    Except.ok
      { serial := unpack32 (wire.take 6)
        scheme := (wire.take 6).getD 4 0
        algorithm := (wire.take 6).getD 5 0
        digest := wire.drop 6 }

/-- Decimal digits of a positive number, least significant first, with fuel. -/
def decDigitsAux : Nat → Nat → List Nat
  | 0, _ => []
  | _ + 1, 0 => []
  | fuel + 1, n + 1 => (n + 1) % 10 :: decDigitsAux fuel ((n + 1) / 10)

/-- Decimal rendering of a natural number as ASCII bytes (Python `str`). -/
def decRender (n : Nat) : Bytes :=
  if n = 0 then [48] else ((decDigitsAux n n).reverse).map (fun d => d + 48)

/-- Lower-case hex digit for a value below 16. -/
def hexChar (d : Nat) : Nat := if d < 10 then 48 + d else 87 + d

/-- Lower-case hex rendering of a byte string (`binascii.b2a_hex`). -/
def hexRender (bs : Bytes) : Bytes :=
  bs.flatMap (fun b => [hexChar (b / 16), hexChar (b % 16)])

/-- `ZONEMD.to_text`: either the RFC 3597 generic form (when the module-level
generic flag is set, modelled as a parameter) or
`serial scheme algorithm hex-digest`.  The result is the ASCII byte string. -/
def ZONEMD.to_text (generic : Bool) (z : ZONEMD) : Bytes :=
  if generic then
    [92, 35, 32] ++ decRender z.toDigestable.length ++ [32] ++ hexRender z.toDigestable
  else
    decRender z.serial ++ [32] ++ decRender z.scheme ++ [32] ++
      decRender z.algorithm ++ [32] ++ hexRender z.digest

/-- Whitespace tokenizer accumulator: split a byte string on spaces. -/
def tokenizeAux : List Nat → List Nat → List Bytes
  | cur, [] => if cur.isEmpty then [] else [cur.reverse]
  | cur, c :: rest =>
    if c = 32 then
      if cur.isEmpty then tokenizeAux [] rest else cur.reverse :: tokenizeAux [] rest
    else tokenizeAux (c :: cur) rest

/-- `Modelled from the spec:` the hosting toolkit's tokenizer (dnspython
`dns.tokenizer`) is external; a presentation-format line is split into
whitespace-separated tokens. -/
def tokenize (s : Bytes) : List Bytes := tokenizeAux [] s

/-- Is this byte an ASCII decimal digit? -/
def isDigitByte (c : Nat) : Bool := 48 ≤ c && c ≤ 57

/-- Parse an all-digits token as a decimal number. -/
def parseDecTok (t : Bytes) : Option Nat :=
  if t.isEmpty then none
  else if t.all isDigitByte then some (t.foldl (fun acc c => acc * 10 + (c - 48)) 0)
  else none

/-- Tokenizer `get_uintN`: consume one token, parse it as a decimal number,
fail when it is missing, not all digits, or at least `bound`. -/
def getUIntTok (bound : Nat) (toks : List Bytes) : Except Err (Nat × List Bytes) :=
  match toks with
  | [] => Except.error Err.malformedRecord
  | t :: rest =>
    match parseDecTok t with
    | none => Except.error Err.malformedRecord
    | some v => if v < bound then Except.ok (v, rest) else Except.error Err.malformedRecord

/-- Value of one hex digit byte (upper or lower case). -/
def hexVal (c : Nat) : Option Nat :=
  if 48 ≤ c ∧ c ≤ 57 then some (c - 48)
  else if 97 ≤ c ∧ c ≤ 102 then some (c - 87)
  else if 65 ≤ c ∧ c ≤ 70 then some (c - 55)
  else none

/-- Hex decoding (`binascii.a2b_hex`): fails on odd length or a non-hex byte. -/
def parseHex : Bytes → Option Bytes
  | [] => some []
  | [_] => none
  | c1 :: c2 :: rest =>
    match hexVal c1, hexVal c2, parseHex rest with
    | some h, some l, some bs => some ((h * 16 + l) :: bs)
    | _, _, _ => none

/-- `ZONEMD.from_text`: parse serial (uint32), scheme (uint8), algorithm
(uint8), then the concatenation of all remaining tokens as hex. -/
def ZONEMD.from_text (toks : List Bytes) : Except Err ZONEMD :=
  match getUIntTok 4294967296 toks with
  | Except.error e => Except.error e
  | Except.ok (serial, toks1) =>
    match getUIntTok 256 toks1 with
    | Except.error e => Except.error e
    | Except.ok (scheme, toks2) =>
      match getUIntTok 256 toks2 with
      | Except.error e => Except.error e
      | Except.ok (algorithm, toks3) =>
        match parseHex toks3.flatten with
        | none => Except.error Err.malformedRecord
        | some digest => Except.ok { serial, scheme, algorithm, digest }

/-- One record's data.  The ZONEMD and the serial-bearing (SOA) records are
structured because the workflow reads and writes their fields; every other
record type is opaque canonical wire bytes supplied by the external codec.
The SOA wire bytes are carried separately from its serial because the external
codec, not this module, produces them. -/
inductive Rdata where
  | zonemd (z : ZONEMD)
  | soa (serial : Nat) (wire : Bytes)
  | generic (wire : Bytes)
deriving DecidableEq, Repr

/-- Canonical wire bytes of a record (`rdata.to_digestable()`). -/
def Rdata.toDigestable : Rdata → Bytes
  | .zonemd z => z.toDigestable
  | .soa _ w => w
  | .generic w => w

/-- The serial attribute, present on SOA and ZONEMD records. -/
def Rdata.serialOf : Rdata → Option Nat
  | .zonemd z => some z.serial
  | .soa s _ => some s
  | .generic _ => none

/-- The algorithm attribute, present on ZONEMD records. -/
def Rdata.algorithmOf : Rdata → Option Nat
  | .zonemd z => some z.algorithm
  | _ => none

/-- A record-set: class, type, covered type (for signatures), TTL, members. -/
structure Rdataset where
  rdclass : Nat
  rdtype : Nat
  covers : Nat
  ttl : Nat
  items : List Rdata
deriving DecidableEq, Repr

/-- A node: the record-sets at one owner name, in in-memory order. -/
structure Node where
  rdatasets : List Rdataset
deriving DecidableEq, Repr

/-- A zone: owner names with their nodes, in in-memory iteration order, plus
the origin name.  The zone acts as a mapping, so well-formed zones have
case-insensitively distinct owner names. -/
structure Zone where
  entries : List (Name × Node)
  origin : Name
deriving DecidableEq, Repr

/-- `zone.keys()`: the owner names in iteration order. -/
def Zone.keys (z : Zone) : List Name := z.entries.map Prod.fst

/-- Node lookup by case-folded name key (name equality in the hosting library
is case-insensitive); returns the first matching entry. -/
def Zone.findByKey (z : Zone) (k : List Bytes) : Option Node :=
  (z.entries.find? (fun e => decide (e.1.lowerKey = k))).map Prod.snd

/-- `node.find_rdataset`: first record-set matching class, type and covers. -/
def Node.findSet (nd : Node) (cls typ cov : Nat) : Option Rdataset :=
  nd.rdatasets.find? (fun rs => decide (rs.rdclass = cls ∧ rs.rdtype = typ ∧ rs.covers = cov))

/-- `zone.get_rdataset(name, rdtype)`: `none` when the name or set is absent. -/
def Zone.get_rdataset (z : Zone) (n : Name) (rdtype : Nat) : Option Rdataset :=
  match z.findByKey n.lowerKey with
  | none => none
  | some nd => nd.findSet 1 rdtype 0

/-- `zone.find_rdataset(name, rdtype)`: raises `KeyError` when absent. -/
def Zone.find_rdataset (z : Zone) (n : Name) (rdtype : Nat) : Except Err Rdataset :=
  match z.get_rdataset n rdtype with
  | none => Except.error Err.keyError
  | some rs => Except.ok rs

/-- Replace the member list of the first apex ZONEMD record-set in a list of
record-sets (the in-place member mutation done by validate/update). -/
def setItemsInSets : List Rdataset → List Rdata → List Rdataset
  | [], _ => []
  | rs :: rest, its =>
    if rs.rdclass = 1 ∧ rs.rdtype = 63 ∧ rs.covers = 0 then { rs with items := its } :: rest
    else rs :: setItemsInSets rest its

/-- Replace the member list of the ZONEMD record-set at the entry whose name
has the given key. -/
def setItemsInEntries : List (Name × Node) → List Bytes → List Rdata → List (Name × Node)
  | [], _, _ => []
  | (n, nd) :: rest, k, its =>
    if n.lowerKey = k then (n, ⟨setItemsInSets nd.rdatasets its⟩) :: rest
    else (n, nd) :: setItemsInEntries rest k its

/-- The zone after mutating the apex ZONEMD record-set's members in place. -/
def setZonemdItems (z : Zone) (k : List Bytes) (its : List Rdata) : Zone :=
  { z with entries := setItemsInEntries z.entries k its }

/-- `Modelled from the spec:` the hash primitive (`hashlib.sha384/sha512`) is
an external collaborator; per the spec any algorithm-agnostic hashing
primitive suffices, the two families differing only in output size.  It is
modelled as an injective deterministic function of the algorithm and the
streamed bytes, which is what the digest-stream claims are about. -/
def hashDigest (alg : Nat) (stream : Bytes) : Bytes := alg :: stream

/-- First member's wire bytes, the tie-break component of the record-set sort
key (`rdataset_sorter`). -/
def Rdataset.firstWire (rs : Rdataset) : Bytes := (rs.items.headD (Rdata.generic [])).toDigestable

/-- Comparator realizing `rdataset_sorter`'s key
`(rdtype, len(first wire), first wire)` under Python tuple comparison. -/
def rdsetCmp (a b : Rdataset) : Ordering :=
  (natCmp a.rdtype b.rdtype).then
    ((natCmp a.firstWire.length b.firstWire.length).then (bytesCmp a.firstWire b.firstWire))

/-- The apex-exclusion tests exactly as written in `calculate_zonemd`: at the
origin name, skip a ZONEMD record-set, and skip an RRSIG record-set covering
ZONEMD. -/
def skipAtApex (origin : Name) (k : List Bytes) (rs : Rdataset) : Bool :=
  if k = origin.lowerKey then
    if rs.rdtype = 63 then true
    else if rs.rdtype = 46 then decide (rs.covers = 63)
    else false
  else false

/-- One record-set's contribution to the digest stream: for each member wire
in sorted order, `owner ++ type ++ class ++ ttl ++ length ++ wire`. -/
def rsetContrib (wireName : Bytes) (rs : Rdataset) : Bytes :=
  let wireSet := pack16 rs.rdtype ++ pack16 rs.rdclass ++ pack32 rs.ttl
  let wires := List.insertionSort (cmpLe bytesCmp) (rs.items.map Rdata.toDigestable)
  wires.flatMap (fun w => wireName ++ wireSet ++ pack16 w.length ++ w)

/-- One node's contribution: record-sets in sorted order, apex exclusions
applied. -/
def nodeContrib (origin : Name) (k : List Bytes) (nd : Node) : Bytes :=
  (List.insertionSort (cmpLe rdsetCmp) nd.rdatasets).flatMap
    (fun rs => if skipAtApex origin k rs then [] else rsetContrib (wireOfKey k) rs)

/-- One owner name's contribution, looked up by its case-folded key. -/
def nameContrib (z : Zone) (k : List Bytes) : Bytes :=
  nodeContrib z.origin k ((z.findByKey k).getD ⟨[]⟩)

/-- The full byte stream fed to the hash by `calculate_zonemd`: owner names in
canonical order, each contributing its node's bytes. -/
def zonemdStream (z : Zone) : Bytes :=
  (List.insertionSort nameLe z.keys).flatMap (fun n => nameContrib z n.lowerKey)

/-- `calculate_zonemd`: check the algorithm, then hash the canonical stream. -/
def calculate_zonemd (z : Zone) (alg : Nat) : Except Err Bytes :=
  if alg = 1 ∨ alg = 2 then Except.ok (hashDigest alg (zonemdStream z))
  else Except.error Err.unknownAlgorithm

/-- `min(zone.keys())`, how the workflow locates the apex name. -/
def zoneApex (z : Zone) : Option Name := listMin nameLt z.keys

/-- `update_zonemd`: compute the digest and overwrite the digest field of the
first apex ZONEMD member in place; returns the updated record and the
resulting zone. -/
def update_zonemd (z : Zone) (alg : Nat) : Except Err (ZONEMD × Zone) :=
  match zoneApex z with
  | none => Except.error Err.valueError
  | some apex =>
    match calculate_zonemd z alg with
    | Except.error e => Except.error e
    | Except.ok digest =>
      match z.find_rdataset apex 63 with
      | Except.error e => Except.error e
      | Except.ok rs =>
        match rs.items with
        | [] => Except.error Err.indexError
        | item0 :: restItems =>
          match item0 with
          | Rdata.zonemd zz =>
            Except.ok ({ zz with digest := digest },
              setZonemdItems z apex.lowerKey (Rdata.zonemd { zz with digest := digest } :: restItems))
          | _ => Except.error Err.attributeError

/-- Validation outcome reasons.  The source formats these as strings; the
constructors carry the data interpolated into each message.
`noZonemdRecord` represents the spec's "no ZONEMD record found" outcome; the
source never constructs it. -/
inductive Reason where
  | noError
  | serialMismatch (soaSerial zSerial : Nat)
  | duplicateAlgorithm (alg : Nat)
  | digestMismatch (stored computed : Bytes)
  | noZonemdRecord
deriving DecidableEq, Repr

/-- The placeholder substituted for a stored digest during validation: the
registry's all-zero digest when the algorithm is known, otherwise zeros of the
stored digest's length. -/
def emptyDigestFor (alg : Nat) (storedLen : Nat) : Bytes :=
  if alg = 1 then List.replicate 48 0
  else if alg = 2 then List.replicate 64 0
  else List.replicate storedLen 0

/-- The collected original digests (`original_digests`), an insertion-ordered
dictionary from algorithm to digest. -/
abbrev Digests := List (Nat × Bytes)

/-- Dictionary membership test. -/
def dictMem (d : Digests) (k : Nat) : Bool := d.any (fun p => decide (p.1 = k))

/-- Dictionary lookup (first binding wins; keys are unique when inserted). -/
def dictGet (d : Digests) (k : Nat) : Option Bytes :=
  (d.find? (fun p => decide (p.1 = k))).map Prod.snd

/-- Result of the collection loop in `validate_zonemd`: an exception, an early
return (with the member list as mutated so far), or completion (with the
collected digests and the fully substituted member list). -/
inductive LoopOut where
  | err (e : Err)
  | early (r : Reason) (items : List Rdata)
  | done (dict : Digests) (items : List Rdata)
deriving DecidableEq, Repr

/-- The first loop of `validate_zonemd` over the apex ZONEMD members: check
the serial against the SOA, skip members whose scheme is not 1, reject a
repeated algorithm, collect the original digest and substitute its
placeholder.  Early returns leave the members processed so far substituted. -/
def validateLoop (soaSerial : Nat) (dict : Digests) : List Rdata → LoopOut
  | [] => LoopOut.done dict []
  | item :: rest =>
    match item with
    | Rdata.zonemd zz =>
      if soaSerial ≠ zz.serial then
        LoopOut.early (Reason.serialMismatch soaSerial zz.serial) (item :: rest)
      else if zz.scheme ≠ 1 then
        match validateLoop soaSerial dict rest with
        | LoopOut.err e => LoopOut.err e
        | LoopOut.early r its => LoopOut.early r (item :: its)
        | LoopOut.done d its => LoopOut.done d (item :: its)
      else if dictMem dict zz.algorithm then
        LoopOut.early (Reason.duplicateAlgorithm zz.algorithm) (item :: rest)
      else
        match validateLoop soaSerial (dict ++ [(zz.algorithm, zz.digest)]) rest with
        | LoopOut.err e => LoopOut.err e
        | LoopOut.early r its =>
          LoopOut.early r (Rdata.zonemd { zz with digest := emptyDigestFor zz.algorithm zz.digest.length } :: its)
        | LoopOut.done d its =>
          LoopOut.done d (Rdata.zonemd { zz with digest := emptyDigestFor zz.algorithm zz.digest.length } :: its)
    | _ => LoopOut.err Err.attributeError

/-- The restore loop of `validate_zonemd`: set every member's digest to the
dictionary entry for its algorithm, raising `KeyError` when absent. -/
def restoreItems (dict : Digests) : List Rdata → Except Err (List Rdata)
  | [] => Except.ok []
  | item :: rest =>
    match item with
    | Rdata.zonemd zz =>
      match dictGet dict zz.algorithm with
      | none => Except.error Err.keyError
      | some d =>
        match restoreItems dict rest with
        | Except.error e => Except.error e
        | Except.ok its => Except.ok (Rdata.zonemd { zz with digest := d } :: its)
    | _ => Except.error Err.attributeError

/-- `validate_zonemd`.  Returns the `(ok, reason)` pair together with the zone
as left by the call; exceptions raised by the source are `Except.error`. -/
def validate_zonemd (z : Zone) : Except Err ((Bool × Reason) × Zone) :=
  match zoneApex z with
  | none => Except.error Err.valueError
  | some apex =>
    match z.get_rdataset apex 6 with
    | none => Except.error Err.attributeError
    | some soaSet =>
      match soaSet.items.head? with
      | none => Except.error Err.indexError
      | some soaItem =>
        match soaItem.serialOf with
        | none => Except.error Err.attributeError
        | some soaSerial =>
          match z.find_rdataset apex 63 with
          | Except.error e => Except.error e
          | Except.ok zmdSet =>
            match validateLoop soaSerial [] zmdSet.items with
            | LoopOut.err e => Except.error e
            | LoopOut.early r its => Except.ok ((false, r), setZonemdItems z apex.lowerKey its)
            | LoopOut.done dict its =>
              match its.getLast? with
              | none => Except.error Err.nameError
              | some lastItem =>
                match lastItem.algorithmOf with
                | none => Except.error Err.attributeError
                | some lastAlg =>
                  match calculate_zonemd (setZonemdItems z apex.lowerKey its) lastAlg with
                  | Except.error e => Except.error e
                  | Except.ok digest =>
                    match restoreItems dict its with
                    | Except.error e => Except.error e
                    | Except.ok restored =>
                      match dictGet dict lastAlg with
                      | none => Except.error Err.keyError
                      | some stored =>
                        if digest ≠ stored then
                          Except.ok ((false, Reason.digestMismatch stored digest),
                            setZonemdItems z apex.lowerKey restored)
                        else
                          Except.ok ((true, Reason.noError),
                            setZonemdItems z apex.lowerKey restored)

deriving instance DecidableEq for Except

/-- The apex-exclusion rule exactly as the spec words it: "if this name equals
the zone apex, skip a record-set whose type is ZONEMD, and skip a record-set
whose type is signature and whose covers field names ZONEMD". -/
def specExcluded (origin : Name) (k : List Bytes) (rs : Rdataset) : Prop :=
  k = origin.lowerKey ∧ (rs.rdtype = 63 ∨ (rs.rdtype = 46 ∧ rs.covers = 63))

instance (o : Name) (k : List Bytes) (rs : Rdataset) : Decidable (specExcluded o k rs) := by
  unfold specExcluded; infer_instance

/-- The digest stream as the spec describes it: the same canonical pipeline,
filtered by `specExcluded`, including all other record-sets at every name. -/
def specStream (z : Zone) : Bytes :=
  (List.insertionSort nameLe z.keys).flatMap (fun n =>
    (List.insertionSort (cmpLe rdsetCmp) ((z.findByKey n.lowerKey).getD ⟨[]⟩).rdatasets).flatMap
      (fun rs => if specExcluded z.origin n.lowerKey rs then [] else rsetContrib (wireOfKey n.lowerKey) rs))

/-- The owner name "e". -/
def nameE : Name := ⟨[[101]]⟩

/-- The owner name "w.e", a subdomain of "e". -/
def nameWE : Name := ⟨[[119], [101]]⟩

/-- An apex SOA record-set with serial 1 and ttl 300. -/
def soaSet : Rdataset := ⟨1, 6, 0, 300, [Rdata.soa 1 [7, 7]]⟩

/-- Zone whose only apex ZONEMD member has scheme 7 and a serial that differs
from the SOA serial. -/
def zC6 : Zone := ⟨[(nameE, ⟨[soaSet, ⟨1, 63, 0, 300, [Rdata.zonemd ⟨2, 7, 1, []⟩]⟩]⟩)], nameE⟩

/-- Zone with an SOA but no ZONEMD record-set at the apex. -/
def zC5a : Zone := ⟨[(nameE, ⟨[soaSet]⟩)], nameE⟩

/-- Zone whose only apex ZONEMD member has scheme 2 (no scheme-1 members). -/
def zC5b : Zone := ⟨[(nameE, ⟨[soaSet, ⟨1, 63, 0, 300, [Rdata.zonemd ⟨1, 2, 1, [9]⟩]⟩]⟩)], nameE⟩

/-- Zone whose apex ZONEMD record-set holds a scheme-1 member (algorithm 1,
digest `[9]`) followed by a scheme-2 member with the same algorithm and
digest `[7]`. -/
def zC1 : Zone :=
  ⟨[(nameE, ⟨[soaSet,
      ⟨1, 63, 0, 300, [Rdata.zonemd ⟨1, 1, 1, [9]⟩, Rdata.zonemd ⟨1, 2, 1, [7]⟩]⟩]⟩)], nameE⟩

/-- The zone `validate_zonemd` hands back for `zC1`: the scheme-2 member's
digest has been overwritten with the scheme-1 member's digest `[9]`. -/
def zC1ret : Zone :=
  ⟨[(nameE, ⟨[soaSet,
      ⟨1, 63, 0, 300, [Rdata.zonemd ⟨1, 1, 1, [9]⟩, Rdata.zonemd ⟨1, 2, 1, [9]⟩]⟩]⟩)], nameE⟩

/-- Zone with one apex scheme-1 ZONEMD member whose digest is empty. -/
def zC3a : Zone := ⟨[(nameE, ⟨[soaSet, ⟨1, 63, 0, 300, [Rdata.zonemd ⟨1, 1, 1, []⟩]⟩]⟩)], nameE⟩

/-- The same zone as `zC3a` except the stored apex ZONEMD digest is `[9]`. -/
def zC3b : Zone := ⟨[(nameE, ⟨[soaSet, ⟨1, 63, 0, 300, [Rdata.zonemd ⟨1, 1, 1, [9]⟩]⟩]⟩)], nameE⟩

/-- Helper zone used only to compute the correct algorithm-2 digest for `zC2`
(the stream does not depend on the stored apex ZONEMD digests). -/
def zC2pre : Zone :=
  ⟨[(nameE, ⟨[soaSet,
      ⟨1, 63, 0, 300, [Rdata.zonemd ⟨1, 1, 1, [5]⟩, Rdata.zonemd ⟨1, 1, 2, []⟩]⟩]⟩)], nameE⟩

/-- The digest `calculate_zonemd` yields for algorithm 2 on that zone. -/
def dC2 : Bytes := (calculate_zonemd zC2pre 2).toOption.getD []

/-- Zone with two apex scheme-1 ZONEMD members: algorithm 1 with a wrong
stored digest `[5]`, then algorithm 2 with the correct stored digest. -/
def zC2 : Zone :=
  ⟨[(nameE, ⟨[soaSet,
      ⟨1, 63, 0, 300, [Rdata.zonemd ⟨1, 1, 1, [5]⟩, Rdata.zonemd ⟨1, 1, 2, dC2⟩]⟩]⟩)], nameE⟩

/-- Zone with two TXT record-sets at the apex, the first holding members
`[1]`, `[3]` in that in-memory order. -/
def zC7a : Zone :=
  ⟨[(nameE, ⟨[⟨1, 16, 0, 0, [Rdata.generic [1], Rdata.generic [3]]⟩,
              ⟨1, 16, 0, 0, [Rdata.generic [2]]⟩]⟩)], nameE⟩

/-- The same zone as `zC7a` with the first record-set's members permuted to
`[3]`, `[1]`; this changes that record-set's sort key. -/
def zC7b : Zone :=
  ⟨[(nameE, ⟨[⟨1, 16, 0, 0, [Rdata.generic [3], Rdata.generic [1]]⟩,
              ⟨1, 16, 0, 0, [Rdata.generic [2]]⟩]⟩)], nameE⟩

/-- Zone exercising the apex exclusions: an RRSIG covering ZONEMD, an RRSIG
covering another type, a ZONEMD record-set, and the SOA. -/
def zC4 : Zone :=
  ⟨[(nameE, ⟨[⟨1, 46, 63, 10, [Rdata.generic [8]]⟩, ⟨1, 46, 5, 10, [Rdata.generic [8]]⟩,
              ⟨1, 63, 0, 10, [Rdata.zonemd ⟨1, 1, 1, []⟩]⟩, soaSet]⟩)], nameE⟩

/-- Zone with the apex and one subdomain, apex listed second. -/
def zC9 : Zone := ⟨[(nameWE, ⟨[]⟩), (nameE, ⟨[]⟩)], nameE⟩

/-- A well-formed single-member witness zone: apex SOA serial 1, one scheme-1
ZONEMD member with algorithm 1, serial 1, digest `[4]`. -/
def zWit : Zone := ⟨[(nameE, ⟨[soaSet, ⟨1, 63, 0, 300, [Rdata.zonemd ⟨1, 1, 1, [4]⟩]⟩]⟩)], nameE⟩

/-- A ZONEMD record used by the codec witnesses. -/
def rWit : ZONEMD := ⟨4294967295, 1, 2, [0, 255, 16]⟩

/-- The laws a three-way comparator shares with Python's comparisons:
argument swap flips the ordering, strict order is transitive, and comparing
equal means interchangeable on the left. -/
structure CmpLaws (c : α → α → Ordering) : Prop where
  swap : ∀ x y, c y x = (c x y).swap
  lt_trans : ∀ {x y z}, c x y = Ordering.lt → c y z = Ordering.lt → c x z = Ordering.lt
  eq_left : ∀ {x y}, c x y = Ordering.eq → ∀ z, c x z = c y z

/-- A member as validate's loop leaves it: digest replaced by the placeholder
for its algorithm. -/
def substMember (m : ZONEMD) : Rdata :=
  Rdata.zonemd { m with digest := emptyDigestFor m.algorithm m.digest.length }

/-- The dictionary of original digests collected from a member list. -/
def digestPairs (members : List ZONEMD) : Digests :=
  members.map (fun m => (m.algorithm, m.digest))

/-- The sort key realized by `rdsetCmp`, for stating key distinctness. -/
def rdsetKey (rs : Rdataset) : Nat × Nat × Bytes :=
  (rs.rdtype, rs.firstWire.length, rs.firstWire)

/-- The node at the origin name, when present, has at most one record-set of
type ZONEMD, and that one is an ordinary (class IN, covers 0) set.  This is
the shape `add_zonemd` establishes ("the apex's sole ZONEMD record-set"). -/
def apexZonemdUnique (z : Zone) : Bool :=
  match z.findByKey z.origin.lowerKey with
  | none => true
  | some nd =>
    decide (nd.rdatasets.countP (fun rs => decide (rs.rdtype = 63)) ≤ 1) &&
      nd.rdatasets.all (fun rs =>
        if rs.rdtype = 63 then decide (rs.rdclass = 1 ∧ rs.covers = 0) else true)

/-! The theorems: claim counterexamples, claim theorems, helper lemmas, and
witnesses. -/

/-- Claim C6 counterexample: a ZONEMD member whose scheme is not 1 is not
silently skipped — its mismatched serial makes validate fail with the serial
mismatch outcome, because the serial check precedes the scheme check. -/
theorem C6_cex :
    validate_zonemd zC6 = Except.ok ((false, Reason.serialMismatch 1 2), zC6) := by
  decide

/-- Claim C5 counterexample: with no scheme-1 member (zC5b) — or no ZONEMD
record-set at all (zC5a) — validate raises `KeyError` instead of returning
`(false, "no ZONEMD record found")`; that message is never produced. -/
theorem C5_cex :
    validate_zonemd zC5b = Except.error Err.keyError ∧
      validate_zonemd zC5a = Except.error Err.keyError := by
  decide

/-- Claim C1 counterexample: validate returns (no exception) yet hands back a
mutated zone — the scheme-2 member's digest `[7]` has been overwritten with
the scheme-1 member's original digest `[9]` by the restore loop. -/
theorem C1_cex :
    (validate_zonemd zC1).toOption.map Prod.snd = some zC1ret ∧ zC1ret ≠ zC1 := by
  decide

/-- Claim C2 counterexample: with two scheme-1 members (algorithms 1 and 2),
validate returns `(true, "")` although the digest computed for algorithm 1
does not match that member's stored digest `[5]`; only the last member's
algorithm is ever compared. -/
theorem C2_cex :
    (validate_zonemd zC2).toOption.map Prod.fst = some (true, Reason.noError) ∧
      calculate_zonemd zC2 1 ≠ Except.ok [5] := by
  decide

/-- Claim C3 counterexample: two zones differing only in the apex ZONEMD
stored digest bytes get the same digest from update — the stored (placeholder)
digest is not part of the hashed stream, because the apex ZONEMD record-set is
skipped entirely. -/
theorem C3_cex :
    zC3a ≠ zC3b ∧
      (update_zonemd zC3a 1).toOption.map (fun p => p.1.digest) =
        (update_zonemd zC3b 1).toOption.map (fun p => p.1.digest) ∧
      ((update_zonemd zC3a 1).toOption.map (fun p => p.1.digest)).isSome = true := by
  decide

/-- Claim C7 counterexample: permuting the members of one record-set changes
the digest, because the record-set sort key is built from the list's first
member and another record-set of the same type sorts between the two keys. -/
theorem C7_cex :
    calculate_zonemd zC7a 1 ≠ calculate_zonemd zC7b 1 ∧
      (calculate_zonemd zC7a 1).toOption.isSome = true ∧
      (calculate_zonemd zC7b 1).toOption.isSome = true := by
  decide

/-- Claim C10: from_wire fails exactly on inputs shorter than six bytes; on
any longer input it succeeds, reading serial big-endian from the first four
bytes, scheme and algorithm from bytes five and six, and the digest as all
remaining bytes unchanged (no length check against the algorithm). -/
theorem C10_theorem :
    (∀ w : Bytes, w.length < 6 → ZONEMD.from_wire w = Except.error Err.malformedRecord) ∧
      (∀ w : Bytes, 6 ≤ w.length →
        ZONEMD.from_wire w = Except.ok
          { serial := unpack32 (w.take 6), scheme := w.getD 4 0,
            algorithm := w.getD 5 0, digest := w.drop 6 }) := by
  constructor
  · intro w h
    match w with
    | [] => rfl
    | [_] => rfl
    | [_, _] => rfl
    | [_, _, _] => rfl
    | [_, _, _, _] => rfl
    | [_, _, _, _, _] => rfl
    | _ :: _ :: _ :: _ :: _ :: _ :: _ => simp [List.length] at h; omega
  · intro w h
    match w with
    | [] => simp at h
    | [_] => simp at h
    | [_, _] => simp at h
    | [_, _, _] => simp at h
    | [_, _, _, _] => simp at h
    | [_, _, _, _, _] => simp at h
    | _ :: _ :: _ :: _ :: _ :: _ :: _ => rfl

/-- Claim C10 witness: a five-byte input fails, a seven-byte input succeeds
with a one-byte digest. -/
theorem C10_witness :
    ([1, 2] : Bytes).length < 6 ∧
      ZONEMD.from_wire [1, 2] = Except.error Err.malformedRecord ∧
      6 ≤ ([0, 0, 0, 7, 1, 2, 9] : Bytes).length ∧
      ZONEMD.from_wire [0, 0, 0, 7, 1, 2, 9] = Except.ok ⟨7, 1, 2, [9]⟩ := by
  refine ⟨by decide, C10_theorem.1 [1, 2] (by decide), by decide, ?_⟩
  exact (C10_theorem.2 [0, 0, 0, 7, 1, 2, 9] (by decide)).trans (by decide)

/-- The source's nested skip tests coincide with the spec's exclusion rule. -/
theorem skip_spec (o : Name) (k : List Bytes) (rs : Rdataset) :
    (if skipAtApex o k rs then ([] : Bytes) else rsetContrib (wireOfKey k) rs) =
      (if specExcluded o k rs then [] else rsetContrib (wireOfKey k) rs) := by
  have h : skipAtApex o k rs = true ↔ specExcluded o k rs := by
    unfold skipAtApex specExcluded
    split_ifs with h1 h2 h3 <;> simp_all
  exact if_congr h rfl rfl

/-- Claim C4: for every zone and registered algorithm, the computed digest is
the hash of the spec-filtered stream: at the apex, ZONEMD record-sets and
signature record-sets covering ZONEMD are skipped, and every other record-set
at every name is included. -/
theorem C4_theorem (z : Zone) (alg : Nat) (h : alg = 1 ∨ alg = 2) :
    calculate_zonemd z alg = Except.ok (hashDigest alg (specStream z)) := by
  have hs : zonemdStream z = specStream z := by
    unfold zonemdStream specStream nameContrib nodeContrib
    refine congrArg _ (funext fun n => congrArg _ (funext fun rs => ?_))
    exact skip_spec z.origin n.lowerKey rs
  unfold calculate_zonemd
  rcases h with h | h <;> simp [h, hs]

/-- Claim C4 witness: the apex-exclusion digest on a zone holding an RRSIG
covering ZONEMD, an ordinary RRSIG, a ZONEMD record-set, and the SOA. -/
theorem C4_witness :
    (1 = 1 ∨ 1 = 2) ∧ calculate_zonemd zC4 1 = Except.ok (hashDigest 1 (specStream zC4)) :=
  ⟨Or.inl rfl, C4_theorem zC4 1 (Or.inl rfl)⟩

/-- The fuel-based decimal digit function agrees with `Nat.digits`. -/
theorem decDigitsAux_eq (fuel n : Nat) (h : n ≤ fuel) : decDigitsAux fuel n = Nat.digits 10 n := by
  induction fuel generalizing n with
  | zero =>
    have hn : n = 0 := by omega
    subst hn; simp [decDigitsAux]
  | succ f ih =>
    cases n with
    | zero => simp [decDigitsAux]
    | succ m =>
      have hd : (m + 1) / 10 < m + 1 := Nat.div_lt_self (by omega) (by omega)
      rw [decDigitsAux, ih ((m + 1) / 10) (by omega),
        Nat.digits_def' (by norm_num) (Nat.succ_pos m)]

/-- Folding decimal digits most-significant-first recovers `Nat.ofDigits`. -/
theorem foldr_ofDigits (ds : List Nat) :
    ds.foldr (fun d acc => acc * 10 + d) 0 = Nat.ofDigits 10 ds := by
  induction ds with
  | nil => simp [Nat.ofDigits]
  | cons d rest ih => simp [Nat.ofDigits, ih]; ring

/-- Every byte of a decimal rendering is an ASCII digit. -/
theorem decRender_digits (n : Nat) : ∀ c ∈ decRender n, 48 ≤ c ∧ c ≤ 57 := by
  intro c hc
  unfold decRender at hc
  by_cases h0 : n = 0
  · simp [h0] at hc; omega
  · rw [if_neg h0] at hc
    simp only [List.mem_map, List.mem_reverse] at hc
    obtain ⟨d, hd, rfl⟩ := hc
    rw [decDigitsAux_eq n n (le_refl n)] at hd
    have := Nat.digits_lt_base (by norm_num) hd
    omega

/-- A decimal rendering is never the empty string. -/
theorem decRender_ne_nil (n : Nat) : decRender n ≠ [] := by
  unfold decRender
  by_cases h0 : n = 0
  · simp [h0]
  · rw [if_neg h0]
    have : Nat.digits 10 n ≠ [] := Nat.digits_ne_nil_iff_ne_zero.mpr h0
    rw [decDigitsAux_eq n n (le_refl n)]
    simp [this]

/-- Parsing a decimal rendering returns the rendered number. -/
theorem parseDec_decRender (n : Nat) : parseDecTok (decRender n) = some n := by
  by_cases h0 : n = 0
  · subst h0; rfl
  · unfold parseDecTok
    rw [if_neg (by simp [List.isEmpty_iff, decRender_ne_nil n])]
    rw [if_pos]
    · unfold decRender
      rw [if_neg h0, decDigitsAux_eq n n (le_refl n)]
      rw [List.foldl_map, List.foldl_reverse]
      refine congrArg some ?_
      calc ((Nat.digits 10 n).foldr (fun x y => y * 10 + (x + 48 - 48)) 0)
          = (Nat.digits 10 n).foldr (fun d acc => acc * 10 + d) 0 := by
            refine congrArg (fun f => List.foldr f 0 (Nat.digits 10 n)) ?_
            funext x y; omega
        _ = Nat.ofDigits 10 (Nat.digits 10 n) := foldr_ofDigits _
        _ = n := Nat.ofDigits_digits 10 n
    · rw [List.all_eq_true]
      intro c hc
      have := decRender_digits n c hc
      simp [isDigitByte]; omega

/-- Hex value of a rendered hex digit. -/
theorem hexVal_hexChar : ∀ d < 16, hexVal (hexChar d) = some d := by decide

/-- Hex decoding inverts hex rendering on byte strings. -/
theorem parseHex_hexRender (bs : Bytes) (h : ∀ b ∈ bs, b < 256) :
    parseHex (hexRender bs) = some bs := by
  induction bs with
  | nil => rfl
  | cons b rest ih =>
    have hb : b < 256 := h b (by simp)
    have hrest := ih (fun x hx => h x (by simp [hx]))
    show parseHex (hexChar (b / 16) :: hexChar (b % 16) :: hexRender rest) = _
    rw [parseHex, hexVal_hexChar (b / 16) (by omega), hexVal_hexChar (b % 16) (by omega), hrest]
    show some ((b / 16 * 16 + b % 16) :: rest) = some (b :: rest)
    have : b / 16 * 16 + b % 16 = b := by omega
    rw [this]

/-- Consuming a space-free segment moves it into the accumulator. -/
theorem tokenizeAux_nospace (t : List Nat) (hns : ∀ c ∈ t, c ≠ 32) :
    ∀ cur rest, tokenizeAux cur (t ++ rest) = tokenizeAux (t.reverse ++ cur) rest := by
  induction t with
  | nil => intro cur rest; simp
  | cons c t ih =>
    intro cur rest
    have hc : c ≠ 32 := hns c (by simp)
    show tokenizeAux cur (c :: (t ++ rest)) = _
    rw [tokenizeAux, if_neg hc, ih (fun x hx => hns x (by simp [hx])) (c :: cur) rest]
    simp

/-- Tokenizing a space-free nonempty token followed by a space yields that
token and continues. -/
theorem tokenize_step (t rest : List Nat) (hne : t ≠ []) (hns : ∀ c ∈ t, c ≠ 32) :
    tokenizeAux [] (t ++ 32 :: rest) = t :: tokenizeAux [] rest := by
  rw [tokenizeAux_nospace t hns [] (32 :: rest), tokenizeAux]
  have : (t.reverse ++ []).isEmpty = false := by
    simp [List.isEmpty_iff, hne]
  rw [if_pos rfl, this]
  simp

/-- Tokenizing a space-free remainder yields it as the only token, or nothing
when it is empty. -/
theorem tokenize_last (t : List Nat) (hns : ∀ c ∈ t, c ≠ 32) :
    tokenizeAux [] t = if t.isEmpty then [] else [t] := by
  have h := tokenizeAux_nospace t hns [] []
  rw [List.append_nil] at h
  rw [h, tokenizeAux]
  by_cases hne : t = []
  · simp [hne]
  · have : (t.reverse ++ []).isEmpty = false := by simp [List.isEmpty_iff, hne]
    rw [this]
    simp [List.isEmpty_iff, hne]

/-- No byte of a hex rendering is a space. -/
theorem hexRender_nospace (bs : Bytes) : ∀ c ∈ hexRender bs, c ≠ 32 := by
  intro c hc
  unfold hexRender at hc
  simp only [List.mem_flatMap] at hc
  obtain ⟨b, _, hb⟩ := hc
  simp only [List.mem_cons, List.mem_singleton] at hb
  unfold hexChar at hb
  rcases hb with rfl | rfl | h
  · split <;> omega
  · split <;> omega
  · simp at h

/-- from_wire on an explicitly six-byte-or-longer input. -/
theorem from_wire_cons (a b c d e f : Nat) (rest : Bytes) :
    ZONEMD.from_wire (a :: b :: c :: d :: e :: f :: rest) =
      Except.ok ⟨a * 16777216 + b * 65536 + c * 256 + d, e, f, rest⟩ := rfl

/-- Consuming a rendered in-range number from the token stream. -/
theorem getUIntTok_decRender (bound n : Nat) (h : n < bound) (rest : List Bytes) :
    getUIntTok bound (decRender n :: rest) = Except.ok (n, rest) := by
  rw [getUIntTok, parseDec_decRender]
  simp [h]

/-- Claim C8: wire and (non-generic) text round trips recover any valid
record: serial below 2^32, scheme and algorithm below 256, digest bytes. -/
theorem C8_theorem (r : ZONEMD) (h1 : r.serial < 4294967296) (h2 : r.scheme < 256)
    (h3 : r.algorithm < 256) (h4 : ∀ b ∈ r.digest, b < 256) :
    ZONEMD.from_wire (ZONEMD.to_wire r) = Except.ok r ∧
      ZONEMD.from_text (tokenize (ZONEMD.to_text false r)) = Except.ok r := by
  constructor
  · show ZONEMD.from_wire (r.serial / 16777216 % 256 :: r.serial / 65536 % 256 ::
      r.serial / 256 % 256 :: r.serial % 256 :: r.scheme % 256 :: r.algorithm % 256 ::
      r.digest) = Except.ok r
    rw [from_wire_cons]
    have e1 : r.serial / 16777216 % 256 * 16777216 + r.serial / 65536 % 256 * 65536 +
        r.serial / 256 % 256 * 256 + r.serial % 256 = r.serial := by omega
    rw [e1, Nat.mod_eq_of_lt h2, Nat.mod_eq_of_lt h3]
  · have htext : ZONEMD.to_text false r =
        decRender r.serial ++ 32 :: (decRender r.scheme ++ 32 ::
          (decRender r.algorithm ++ 32 :: hexRender r.digest)) := by
      rw [ZONEMD.to_text, if_neg (by simp)]
      simp
    have hdns : ∀ n : Nat, ∀ c ∈ decRender n, c ≠ 32 := by
      intro n c hc
      have := decRender_digits n c hc
      omega
    have htoks : tokenize (ZONEMD.to_text false r) =
        decRender r.serial :: decRender r.scheme :: decRender r.algorithm ::
          (if (hexRender r.digest).isEmpty then [] else [hexRender r.digest]) := by
      rw [htext]
      unfold tokenize
      rw [tokenize_step _ _ (decRender_ne_nil _) (hdns _),
        tokenize_step _ _ (decRender_ne_nil _) (hdns _),
        tokenize_step _ _ (decRender_ne_nil _) (hdns _),
        tokenize_last _ (hexRender_nospace _)]
    have hflat : (if (hexRender r.digest).isEmpty then ([] : List Bytes)
        else [hexRender r.digest]).flatten = hexRender r.digest := by
      by_cases h : hexRender r.digest = []
      · simp [h]
      · simp [List.isEmpty_iff, h]
    rw [htoks]
    simp only [ZONEMD.from_text, getUIntTok_decRender 4294967296 r.serial h1,
      getUIntTok_decRender 256 r.scheme h2, getUIntTok_decRender 256 r.algorithm h3,
      hflat, parseHex_hexRender r.digest h4]

/-- Claim C8 witness: both round trips at a concrete record. -/
theorem C8_witness :
    (rWit.serial < 4294967296 ∧ rWit.scheme < 256 ∧ rWit.algorithm < 256 ∧
      ∀ b ∈ rWit.digest, b < 256) ∧
      ZONEMD.from_wire (ZONEMD.to_wire rWit) = Except.ok rWit ∧
      ZONEMD.from_text (tokenize (ZONEMD.to_text false rWit)) = Except.ok rWit :=
  ⟨by decide, (C8_theorem rWit (by decide) (by decide) (by decide) (by decide)).1,
    (C8_theorem rWit (by decide) (by decide) (by decide) (by decide)).2⟩

/-- Comparing a natural with itself. -/
theorem natCmp_self (a : Nat) : natCmp a a = Ordering.eq := by
  unfold natCmp; simp

/-- Swapping the arguments of the natural comparator. -/
theorem natCmp_swap (a b : Nat) : natCmp b a = (natCmp a b).swap := by
  unfold natCmp
  split_ifs <;> first | rfl | omega

/-- The natural comparator returns eq exactly on equal arguments. -/
theorem natCmp_eq_iff (a b : Nat) : natCmp a b = Ordering.eq ↔ a = b := by
  unfold natCmp
  split_ifs <;> simp <;> omega

/-- Comparing a list with itself. -/
theorem listCmp_self (c : α → α → Ordering) (hc : ∀ x, c x x = Ordering.eq) (l : List α) :
    listCmp c l l = Ordering.eq := by
  induction l with
  | nil => rfl
  | cons a t ih => rw [listCmp, hc a]; exact ih

/-- Swapping the arguments of the list comparator. -/
theorem listCmp_swap (c : α → α → Ordering) (hc : ∀ x y, c y x = (c x y).swap) :
    ∀ l₁ l₂, listCmp c l₂ l₁ = (listCmp c l₁ l₂).swap := by
  intro l₁
  induction l₁ with
  | nil => intro l₂; cases l₂ <;> rfl
  | cons a as ih =>
    intro l₂
    cases l₂ with
    | nil => rfl
    | cons b bs =>
      show listCmp c (b :: bs) (a :: as) = (listCmp c (a :: as) (b :: bs)).swap
      rw [listCmp, listCmp, hc a b]
      cases h : c a b with
      | lt => rfl
      | eq => exact ih bs
      | gt => rfl

/-- The list comparator returns eq exactly on equal lists. -/
theorem listCmp_eq_iff (c : α → α → Ordering) (hc : ∀ x y, c x y = Ordering.eq ↔ x = y) :
    ∀ l₁ l₂, listCmp c l₁ l₂ = Ordering.eq ↔ l₁ = l₂ := by
  intro l₁
  induction l₁ with
  | nil => intro l₂; cases l₂ <;> simp [listCmp]
  | cons a as ih =>
    intro l₂
    cases l₂ with
    | nil => simp [listCmp]
    | cons b bs =>
      rw [listCmp]
      by_cases hab : a = b
      · subst hab
        rw [(hc a a).mpr rfl]
        simp [ih bs]
      · have hne : c a b ≠ Ordering.eq := fun h => hab ((hc a b).mp h)
        cases h : c a b with
        | eq => exact absurd h hne
        | lt => simp [hab]
        | gt => simp [hab]

/-- A list compares strictly below any proper extension of itself. -/
theorem listCmp_append_lt (c : α → α → Ordering) (hc : ∀ x, c x x = Ordering.eq)
    (l : List α) (x : α) (t : List α) : listCmp c l (l ++ x :: t) = Ordering.lt := by
  induction l with
  | nil => rfl
  | cons a l ih => rw [List.cons_append, listCmp, hc a]; exact ih

/-- Byte-string comparator facts, inherited from the natural comparator. -/
theorem bytesCmp_self (x : Bytes) : bytesCmp x x = Ordering.eq :=
  listCmp_self natCmp natCmp_self x

theorem bytesCmp_swap (x y : Bytes) : bytesCmp y x = (bytesCmp x y).swap :=
  listCmp_swap natCmp natCmp_swap x y

theorem bytesCmp_eq_iff (x y : Bytes) : bytesCmp x y = Ordering.eq ↔ x = y :=
  listCmp_eq_iff natCmp natCmp_eq_iff x y

/-- Name-key comparator facts, inherited from the byte-string comparator. -/
theorem keyCmp_self (k : List Bytes) : keyCmp k k = Ordering.eq :=
  listCmp_self bytesCmp bytesCmp_self k

theorem keyCmp_swap (k j : List Bytes) : keyCmp j k = (keyCmp k j).swap :=
  listCmp_swap bytesCmp bytesCmp_swap k j

/-- A name key compares strictly below any proper extension of itself. -/
theorem keyCmp_append_lt (k : List Bytes) (e : Bytes) (t : List Bytes) :
    keyCmp k (k ++ e :: t) = Ordering.lt :=
  listCmp_append_lt bytesCmp bytesCmp_self k e t

theorem keyCmp_eq_iff (k j : List Bytes) : keyCmp k j = Ordering.eq ↔ k = j :=
  listCmp_eq_iff bytesCmp bytesCmp_eq_iff k j

/-- Python `min`'s fold reaches a strictly least element. -/
theorem foldlMin_eq {lt : α → α → Prop} [DecidableRel lt] (a : α) (irr : ¬ lt a a) :
    ∀ (xs : List α) (acc : α),
      (∀ b ∈ xs, b ≠ a → lt a b ∧ ¬ lt b a) →
      (acc = a ∨ (lt a acc ∧ a ∈ xs)) →
      List.foldl (fun acc y => if lt y acc then y else acc) acc xs = a := by
  intro xs
  induction xs with
  | nil =>
    intro acc _ hacc
    rcases hacc with rfl | ⟨_, hmem⟩
    · rfl
    · cases hmem
  | cons y ys ih =>
    intro acc hb hacc
    rw [List.foldl_cons]
    have hbs : ∀ b ∈ ys, b ≠ a → lt a b ∧ ¬ lt b a :=
      fun b hb' hne => hb b (List.mem_cons_of_mem y hb') hne
    by_cases hy : y = a
    · rcases hacc with heq | ⟨hlt, _⟩
      · rw [hy, heq, if_neg irr]
        exact ih a hbs (Or.inl rfl)
      · rw [hy, if_pos hlt]
        exact ih a hbs (Or.inl rfl)
    · have hyprop := hb y (by simp) hy
      rcases hacc with heq | ⟨hlt, hmem⟩
      · rw [heq, if_neg hyprop.2]
        exact ih a hbs (Or.inl rfl)
      · have hmem' : a ∈ ys := by
          rcases List.mem_cons.mp hmem with h | h
          · exact absurd h.symm hy
          · exact h
        by_cases hstep : lt y acc
        · rw [if_pos hstep]
          exact ih y hbs (Or.inr ⟨hyprop.1, hmem'⟩)
        · rw [if_neg hstep]
          exact ih acc hbs (Or.inr ⟨hlt, hmem'⟩)

/-- Claim C9: when the origin is present and every owner name extends the
origin's case-folded key (is the apex or a subdomain of it), and owner names
are case-insensitively distinct, the canonical order's minimum — the way add,
update and validate locate the apex — is the origin. -/
theorem C9_theorem (z : Zone)
    (h1 : z.origin ∈ z.keys)
    (h2 : ∀ n ∈ z.keys, ∃ ext, n.lowerKey = z.origin.lowerKey ++ ext)
    (h3 : (z.keys.map Name.lowerKey).Nodup) :
    zoneApex z = some z.origin := by
  have irr : ¬ nameLt z.origin z.origin := by
    unfold nameLt cmpLt
    rw [keyCmp_self]
    simp
  have hprop : ∀ b ∈ z.keys, b ≠ z.origin → nameLt z.origin b ∧ ¬ nameLt b z.origin := by
    intro b hbmem hbne
    obtain ⟨ext, hext⟩ := h2 b hbmem
    cases ext with
    | nil =>
      rw [List.append_nil] at hext
      have : b = z.origin :=
        List.inj_on_of_nodup_map h3 hbmem h1 (by rw [hext])
      exact absurd this hbne
    | cons e ext' =>
      constructor
      · unfold nameLt cmpLt
        rw [hext]
        exact listCmp_append_lt bytesCmp bytesCmp_self _ e ext'
      · unfold nameLt cmpLt
        rw [hext, keyCmp_swap z.origin.lowerKey (z.origin.lowerKey ++ e :: ext'),
          keyCmp_append_lt]
        decide
  unfold zoneApex
  cases hk : z.keys with
  | nil => rw [hk] at h1; cases h1
  | cons x xs =>
    rw [hk] at hprop h1
    show some (List.foldl (fun acc y => if nameLt y acc then y else acc) x xs) = some z.origin
    refine congrArg some (foldlMin_eq z.origin irr xs x
      (fun b hb hne => hprop b (by simp [hb]) hne) ?_)
    by_cases hx : x = z.origin
    · exact Or.inl hx
    · refine Or.inr ⟨(hprop x (by simp) hx).1, ?_⟩
      rcases List.mem_cons.mp h1 with h | h
      · exact absurd h.symm hx
      · exact h

/-- Claim C9 witness: in a zone listing the subdomain before the apex, the
minimum is the apex. -/
theorem C9_witness :
    (nameE ∈ zC9.keys ∧ (zC9.keys.map Name.lowerKey).Nodup) ∧
      zoneApex zC9 = some zC9.origin := by
  refine ⟨by decide, C9_theorem zC9 (by decide) ?_ (by decide)⟩
  intro n hn
  have : n = nameWE ∨ n = nameE := by
    simpa [zC9, Zone.keys] using hn
  rcases this with rfl | rfl
  · exact ⟨[[119]], by decide⟩
  · exact ⟨[], by decide⟩

/-- Replacing the apex ZONEMD members does not change the owner names. -/
theorem setItemsInEntries_keys (entries : List (Name × Node)) (k : List Bytes) (its : List Rdata) :
    (setItemsInEntries entries k its).map Prod.fst = entries.map Prod.fst := by
  induction entries with
  | nil => rfl
  | cons e rest ih =>
    obtain ⟨n, nd⟩ := e
    rw [setItemsInEntries]
    by_cases h : n.lowerKey = k
    · rw [if_pos h]
      rfl
    · rw [if_neg h, List.map_cons, List.map_cons, ih]

/-- Zone-level corollary of the previous lemma. -/
theorem keys_setZonemdItems (z : Zone) (k : List Bytes) (its : List Rdata) :
    (setZonemdItems z k its).keys = z.keys :=
  setItemsInEntries_keys z.entries k its

/-- Lookup under a different key is unaffected by the member replacement. -/
theorem find?_setEntries_ne (entries : List (Name × Node)) (k : List Bytes) (its : List Rdata)
    (k' : List Bytes) (hne : k' ≠ k) :
    (setItemsInEntries entries k its).find? (fun e => decide (e.1.lowerKey = k')) =
      entries.find? (fun e => decide (e.1.lowerKey = k')) := by
  induction entries with
  | nil => rfl
  | cons e rest ih =>
    obtain ⟨n, nd⟩ := e
    rw [setItemsInEntries]
    by_cases h1 : n.lowerKey = k
    · rw [if_pos h1]
      have hk' : ¬ n.lowerKey = k' := by rw [h1]; exact fun hh => hne hh.symm
      rw [List.find?_cons_of_neg _ (by simpa using hk'),
        List.find?_cons_of_neg _ (by simpa using hk')]
    · rw [if_neg h1]
      by_cases h3 : n.lowerKey = k'
      · rw [List.find?_cons_of_pos _ (by simpa using h3),
          List.find?_cons_of_pos _ (by simpa using h3)]
      · rw [List.find?_cons_of_neg _ (by simpa using h3),
          List.find?_cons_of_neg _ (by simpa using h3), ih]

/-- Lookup under the replaced key sees the transformed node. -/
theorem find?_setEntries_eq (entries : List (Name × Node)) (k : List Bytes) (its : List Rdata) :
    ((setItemsInEntries entries k its).find? (fun e => decide (e.1.lowerKey = k))).map Prod.snd =
      ((entries.find? (fun e => decide (e.1.lowerKey = k))).map Prod.snd).map
        (fun nd => (⟨setItemsInSets nd.rdatasets its⟩ : Node)) := by
  induction entries with
  | nil => rfl
  | cons e rest ih =>
    obtain ⟨n, nd⟩ := e
    rw [setItemsInEntries]
    by_cases h1 : n.lowerKey = k
    · rw [if_pos h1]
      rw [List.find?_cons_of_pos _ (by simpa using h1),
        List.find?_cons_of_pos _ (by simpa using h1)]
      rfl
    · rw [if_neg h1]
      rw [List.find?_cons_of_neg _ (by simpa using h1),
        List.find?_cons_of_neg _ (by simpa using h1), ih]

/-- Characterization of node lookup after the member replacement. -/
theorem findByKey_setZonemd (z : Zone) (k : List Bytes) (its : List Rdata) (k' : List Bytes) :
    (setZonemdItems z k its).findByKey k' =
      if k' = k then
        (z.findByKey k).map (fun nd => (⟨setItemsInSets nd.rdatasets its⟩ : Node))
      else z.findByKey k' := by
  by_cases h : k' = k
  · subst h
    rw [if_pos rfl]
    exact find?_setEntries_eq z.entries k' its
  · rw [if_neg h]
    show ((setItemsInEntries z.entries k its).find? _).map Prod.snd = _
    rw [find?_setEntries_ne z.entries k its k' h]
    rfl

/-- Writing a record-set's own members back leaves the list unchanged. -/
theorem setItemsInSets_self (sets : List Rdataset) (rs : Rdataset)
    (h : sets.find? (fun s => decide (s.rdclass = 1 ∧ s.rdtype = 63 ∧ s.covers = 0)) = some rs) :
    setItemsInSets sets rs.items = sets := by
  induction sets with
  | nil => simp at h
  | cons s rest ih =>
    rw [setItemsInSets]
    by_cases hc : s.rdclass = 1 ∧ s.rdtype = 63 ∧ s.covers = 0
    · rw [if_pos hc]
      rw [List.find?_cons_of_pos _ (by simpa using hc)] at h
      have hs : s = rs := by injection h
      cases hs
      rfl
    · rw [if_neg hc]
      rw [List.find?_cons_of_neg _ (by simpa using hc)] at h
      rw [ih h]

/-- Replacing members with a no-op transformation leaves the entries alone. -/
theorem setEntries_self (entries : List (Name × Node)) (k : List Bytes) (its : List Rdata)
    (h : ∀ nd, (entries.find? (fun e => decide (e.1.lowerKey = k))).map Prod.snd = some nd →
      setItemsInSets nd.rdatasets its = nd.rdatasets) :
    setItemsInEntries entries k its = entries := by
  induction entries with
  | nil => rfl
  | cons e rest ih =>
    obtain ⟨n, nd⟩ := e
    rw [setItemsInEntries]
    by_cases h1 : n.lowerKey = k
    · rw [if_pos h1]
      have := h nd (by rw [List.find?_cons_of_pos _ (by simpa using h1)]; rfl)
      rw [this]
    · rw [if_neg h1,
        ih (fun nd' h' => h nd' (by rw [List.find?_cons_of_neg _ (by simpa using h1)]; exact h'))]

/-- Writing the found apex ZONEMD record-set's own members back is the
identity on the zone. -/
theorem setZonemd_self (z : Zone) (apex : Name) (rs : Rdataset)
    (h : z.get_rdataset apex 63 = some rs) :
    setZonemdItems z apex.lowerKey rs.items = z := by
  unfold Zone.get_rdataset at h
  cases hf : z.findByKey apex.lowerKey with
  | none => rw [hf] at h; simp at h
  | some nd =>
    rw [hf] at h
    suffices hs : setItemsInEntries z.entries apex.lowerKey rs.items = z.entries by
      show ({ z with entries := _ } : Zone) = z
      rw [hs]
    refine setEntries_self z.entries apex.lowerKey rs.items (fun nd' h' => ?_)
    have : some nd = some nd' := by
      rw [← hf]; exact h'
    have hnd : nd' = nd := by injection this with hh; exact hh.symm
    subst hnd
    exact setItemsInSets_self nd'.rdatasets rs h

/-- Membership form of the digest-dictionary test. -/
theorem dictMem_iff (d : Digests) (k : Nat) : dictMem d k = true ↔ k ∈ d.map Prod.fst := by
  simp [dictMem, List.any_eq_true, List.mem_map]

/-- The last element of a list is a member. -/
theorem getLast?_mem' {l : List α} {x : α} (h : l.getLast? = some x) : x ∈ l := by
  induction l with
  | nil => simp at h
  | cons a rest ih =>
    cases rest with
    | nil =>
      simp [List.getLast?] at h
      simp [h]
    | cons b bs =>
      rw [List.getLast?_cons_cons] at h
      exact List.mem_cons_of_mem a (ih h)

/-- A successful find_rdataset is a successful get_rdataset. -/
theorem find_rdataset_ok {z : Zone} {n : Name} {t : Nat} {rs : Rdataset}
    (h : z.find_rdataset n t = Except.ok rs) : z.get_rdataset n t = some rs := by
  unfold Zone.find_rdataset at h
  cases hg : z.get_rdataset n t with
  | none => rw [hg] at h; simp at h
  | some rs' =>
    rw [hg] at h
    injection h with hh
    rw [hh]

/-- The collection loop on members that all have scheme 1, the SOA serial, and
pairwise distinct algorithms: it completes, collecting every original digest
in order and substituting every placeholder. -/
theorem validateLoop_all1 (S : Nat) (members : List ZONEMD) :
    ∀ dict : Digests,
      (∀ m ∈ members, m.scheme = 1 ∧ m.serial = S) →
      (dict.map Prod.fst ++ members.map ZONEMD.algorithm).Nodup →
      validateLoop S dict (members.map Rdata.zonemd) =
        LoopOut.done (dict ++ digestPairs members) (members.map substMember) := by
  induction members with
  | nil => intro dict _ _; simp [validateLoop, digestPairs]
  | cons m rest ih =>
    intro dict h1 h2
    have hm := h1 m (by simp)
    have hdisj : m.algorithm ∉ dict.map Prod.fst := by
      intro hmem
      exact List.disjoint_of_nodup_append h2 hmem (by simp)
    have hdm : dictMem dict m.algorithm = false := by
      cases hb : dictMem dict m.algorithm
      · rfl
      · exact absurd ((dictMem_iff _ _).mp hb) hdisj
    rw [List.map_cons, validateLoop]
    simp only [hdm]
    rw [if_neg (show ¬ S ≠ m.serial from fun hne => hne hm.2.symm),
      if_neg (show ¬ m.scheme ≠ 1 from fun h => h hm.1)]
    rw [if_neg (show ¬ false = true by simp)]
    rw [ih (dict ++ [(m.algorithm, m.digest)])
      (fun m' hm' => h1 m' (List.mem_cons_of_mem m hm'))
      (by simpa [List.append_assoc] using h2)]
    simp [digestPairs, substMember, List.append_assoc]

/-- The collection loop on members none of which has scheme 1 (serials all
matching): every member is skipped and nothing is collected or substituted. -/
theorem validateLoop_skip (S : Nat) (members : List ZONEMD) :
    ∀ dict : Digests,
      (∀ m ∈ members, m.scheme ≠ 1 ∧ m.serial = S) →
      validateLoop S dict (members.map Rdata.zonemd) =
        LoopOut.done dict (members.map Rdata.zonemd) := by
  induction members with
  | nil => intro dict _; simp [validateLoop]
  | cons m rest ih =>
    intro dict h1
    have hm := h1 m (by simp)
    rw [List.map_cons, validateLoop]
    rw [if_neg (show ¬ S ≠ m.serial from fun hne => hne hm.2.symm),
      if_pos hm.1]
    rw [ih dict (fun m' hm' => h1 m' (List.mem_cons_of_mem m hm'))]

/-- The collection loop hits a serial mismatch — of any scheme — after a clean
scheme-1 prefix: early return, prefix left substituted. -/
theorem validateLoop_serial (S : Nat) (pre : List ZONEMD) (zm : ZONEMD) (tail : List Rdata) :
    ∀ dict : Digests,
      (∀ m ∈ pre, m.scheme = 1 ∧ m.serial = S) →
      (dict.map Prod.fst ++ pre.map ZONEMD.algorithm).Nodup →
      zm.serial ≠ S →
      validateLoop S dict (pre.map Rdata.zonemd ++ Rdata.zonemd zm :: tail) =
        LoopOut.early (Reason.serialMismatch S zm.serial)
          (pre.map substMember ++ Rdata.zonemd zm :: tail) := by
  induction pre with
  | nil =>
    intro dict _ _ hzm
    rw [List.map_nil, List.nil_append, validateLoop]
    rw [if_pos (show S ≠ zm.serial from fun h => hzm h.symm)]
    simp
  | cons m rest ih =>
    intro dict h1 h2 hzm
    have hm := h1 m (by simp)
    have hdisj : m.algorithm ∉ dict.map Prod.fst := by
      intro hmem
      exact List.disjoint_of_nodup_append h2 hmem (by simp)
    have hdm : dictMem dict m.algorithm = false := by
      cases hb : dictMem dict m.algorithm
      · rfl
      · exact absurd ((dictMem_iff _ _).mp hb) hdisj
    rw [List.map_cons, List.cons_append, validateLoop]
    simp only [hdm]
    rw [if_neg (show ¬ S ≠ m.serial from fun hne => hne hm.2.symm),
      if_neg (show ¬ m.scheme ≠ 1 from fun h => h hm.1)]
    rw [if_neg (show ¬ false = true by simp)]
    rw [ih (dict ++ [(m.algorithm, m.digest)])
      (fun m' hm' => h1 m' (List.mem_cons_of_mem m hm'))
      (by simpa [List.append_assoc] using h2) hzm]
    simp [substMember]

/-- Looking an algorithm up in the collected dictionary finds that member's
original digest, when algorithms are pairwise distinct. -/
theorem dictGet_digestPairs (members : List ZONEMD)
    (hnd : (members.map ZONEMD.algorithm).Nodup) :
    ∀ m ∈ members, dictGet (digestPairs members) m.algorithm = some m.digest := by
  induction members with
  | nil => intro m hm; simp at hm
  | cons m0 rest ih =>
    intro m hm
    rw [digestPairs, List.map_cons]
    rcases List.mem_cons.mp hm with rfl | hmr
    · unfold dictGet
      rw [List.find?_cons_of_pos _ (by simp)]
      rfl
    · rw [List.map_cons] at hnd
      have hnd' := List.nodup_cons.mp hnd
      have hne : m0.algorithm ≠ m.algorithm := by
        intro he
        exact hnd'.1 (he ▸ List.mem_map_of_mem ZONEMD.algorithm hmr)
      unfold dictGet
      rw [List.find?_cons_of_neg _ (by simpa using hne)]
      exact ih hnd'.2 m hmr

/-- Restoring substituted members from the collected dictionary recovers the
original members. -/
theorem restoreItems_ok (D : Digests) (members : List ZONEMD)
    (h : ∀ m ∈ members, dictGet D m.algorithm = some m.digest) :
    restoreItems D (members.map substMember) = Except.ok (members.map Rdata.zonemd) := by
  induction members with
  | nil => rfl
  | cons m rest ih =>
    rw [List.map_cons]
    simp only [substMember, restoreItems]
    rw [show ({ m with digest := emptyDigestFor m.algorithm m.digest.length } : ZONEMD).algorithm
      = m.algorithm from rfl]
    rw [h m (by simp)]
    rw [show restoreItems D (rest.map substMember) = restoreItems D (List.map substMember rest)
      from rfl]
    rw [ih (fun m' hm' => h m' (List.mem_cons_of_mem m hm'))]
    rfl

/-- The substituted member keeps its algorithm attribute. -/
theorem algorithmOf_substMember (m : ZONEMD) :
    (substMember m).algorithmOf = some m.algorithm := rfl

/-- Claim C1 (amended): on a zone whose apex ZONEMD members all have scheme 1,
the SOA serial, and pairwise distinct algorithms — the last one registered —
validate returns with the zone exactly as it received it.  (As stated the
claim is false: early returns after a substitution, and the restore loop's
handling of non-scheme-1 members, can hand back a mutated zone.) -/
theorem C1_theorem (z : Zone) (apex : Name) (soaSet' : Rdataset) (soaItem : Rdata) (S : Nat)
    (zmdSet : Rdataset) (members : List ZONEMD) (mLast : ZONEMD)
    (h1 : zoneApex z = some apex)
    (h2 : z.get_rdataset apex 6 = some soaSet')
    (h3 : soaSet'.items.head? = some soaItem)
    (h4 : soaItem.serialOf = some S)
    (h5 : z.find_rdataset apex 63 = Except.ok zmdSet)
    (h6 : zmdSet.items = members.map Rdata.zonemd)
    (h7 : ∀ m ∈ members, m.scheme = 1 ∧ m.serial = S)
    (h8 : (members.map ZONEMD.algorithm).Nodup)
    (h9 : members.getLast? = some mLast)
    (h10 : mLast.algorithm = 1 ∨ mLast.algorithm = 2) :
    ∃ res, validate_zonemd z = Except.ok (res, z) := by
  have hloop := validateLoop_all1 S members [] h7 (by simpa using h8)
  have hlast : (members.map substMember).getLast? = some (substMember mLast) := by
    rw [List.getLast?_map, h9]; rfl
  have hrestore := restoreItems_ok (digestPairs members) members (dictGet_digestPairs members h8)
  have hstored := dictGet_digestPairs members h8 mLast (getLast?_mem' h9)
  have hset : setZonemdItems z apex.lowerKey zmdSet.items = z :=
    setZonemd_self z apex zmdSet (find_rdataset_ok h5)
  simp only [validate_zonemd, h1, h2, h3, h4, h5, h6, hloop, List.nil_append, hlast,
    algorithmOf_substMember, calculate_zonemd]
  rw [if_pos h10]
  simp only [hrestore, hstored]
  rw [← h6, hset]
  split
  · exact ⟨_, rfl⟩
  · exact ⟨_, rfl⟩

/-- Claim C1 witness: a single-member well-formed zone comes back unchanged. -/
theorem C1_witness :
    ((∀ m ∈ [(⟨1, 1, 1, [4]⟩ : ZONEMD)], m.scheme = 1 ∧ m.serial = 1) ∧
      zoneApex zWit = some nameE) ∧
      ∃ res, validate_zonemd zWit = Except.ok (res, zWit) :=
  ⟨⟨by decide, by decide⟩, C1_theorem zWit nameE soaSet (Rdata.soa 1 [7, 7]) 1
    ⟨1, 63, 0, 300, [Rdata.zonemd ⟨1, 1, 1, [4]⟩]⟩ [⟨1, 1, 1, [4]⟩] ⟨1, 1, 1, [4]⟩
    (by decide) (by decide) (by decide) (by decide) (by decide) (by decide) (by decide)
    (by decide) (by decide) (by decide)⟩

/-- Claim C6 (amended): the serial check precedes the scheme check, so the
first member whose serial disagrees with the SOA — whatever its scheme —
makes validate return the serial-mismatch failure; only the duplicate check
and the placeholder substitution are limited to scheme-1 members. -/
theorem C6_theorem (z : Zone) (apex : Name) (soaSet' : Rdataset) (soaItem : Rdata) (S : Nat)
    (zmdSet : Rdataset) (pre : List ZONEMD) (zm : ZONEMD) (tail : List Rdata)
    (h1 : zoneApex z = some apex)
    (h2 : z.get_rdataset apex 6 = some soaSet')
    (h3 : soaSet'.items.head? = some soaItem)
    (h4 : soaItem.serialOf = some S)
    (h5 : z.find_rdataset apex 63 = Except.ok zmdSet)
    (h6 : zmdSet.items = pre.map Rdata.zonemd ++ Rdata.zonemd zm :: tail)
    (h7 : ∀ m ∈ pre, m.scheme = 1 ∧ m.serial = S)
    (h8 : (pre.map ZONEMD.algorithm).Nodup)
    (h9 : zm.serial ≠ S) :
    (validate_zonemd z).toOption.map Prod.fst =
      some (false, Reason.serialMismatch S zm.serial) := by
  have hloop := validateLoop_serial S pre zm tail [] h7 (by simpa using h8) h9
  simp only [validate_zonemd, h1, h2, h3, h4, h5, h6, hloop]
  rfl

/-- Claim C6 witness: a lone scheme-7 member with the wrong serial produces
the serial-mismatch failure. -/
theorem C6_witness :
    ((2 : Nat) ≠ 1) ∧
      (validate_zonemd zC6).toOption.map Prod.fst = some (false, Reason.serialMismatch 1 2) :=
  ⟨by decide, C6_theorem zC6 nameE soaSet (Rdata.soa 1 [7, 7]) 1
    ⟨1, 63, 0, 300, [Rdata.zonemd ⟨2, 7, 1, []⟩]⟩ [] ⟨2, 7, 1, []⟩ []
    (by decide) (by decide) (by decide) (by decide) (by decide) (by decide) (by decide)
    (by decide) (by decide)⟩

/-- The collection loop's early return never carries the no-record reason. -/
theorem validateLoop_reason (S : Nat) :
    ∀ (items : List Rdata) (dict : Digests) (r : Reason) (its : List Rdata),
      validateLoop S dict items = LoopOut.early r its → r ≠ Reason.noZonemdRecord := by
  intro items
  induction items with
  | nil =>
    intro dict r its h
    simp only [validateLoop] at h
    cases h
  | cons item rest ih =>
    intro dict r its h
    cases item with
    | zonemd zz =>
      simp only [validateLoop] at h
      by_cases hs : S ≠ zz.serial
      · rw [if_pos hs] at h
        cases h
        simp
      · rw [if_neg hs] at h
        by_cases hsch : zz.scheme ≠ 1
        · rw [if_pos hsch] at h
          cases hrec : validateLoop S dict rest with
          | err e => simp only [hrec] at h; cases h
          | early r' its' =>
            simp only [hrec] at h
            cases h
            exact ih dict _ _ hrec
          | done d its' => simp only [hrec] at h; cases h
        · rw [if_neg hsch] at h
          by_cases hdm : dictMem dict zz.algorithm
          · rw [if_pos hdm] at h
            cases h
            simp
          · rw [if_neg hdm] at h
            cases hrec : validateLoop S (dict ++ [(zz.algorithm, zz.digest)]) rest with
            | err e => simp only [hrec] at h; cases h
            | early r' its' =>
              simp only [hrec] at h
              cases h
              exact ih (dict ++ [(zz.algorithm, zz.digest)]) _ _ hrec
            | done d its' => simp only [hrec] at h; cases h
    | soa s w => simp only [validateLoop] at h; cases h
    | generic w => simp only [validateLoop] at h; cases h

/-- The collection loop hits a serial mismatch after a prefix of skipped
(non-scheme-1, serial-matching) members: early return, nothing substituted. -/
theorem validateLoop_serial_skip (S : Nat) (pre : List ZONEMD) (zm : ZONEMD) (tail : List Rdata) :
    ∀ dict : Digests,
      (∀ m ∈ pre, m.scheme ≠ 1 ∧ m.serial = S) →
      zm.serial ≠ S →
      validateLoop S dict (pre.map Rdata.zonemd ++ Rdata.zonemd zm :: tail) =
        LoopOut.early (Reason.serialMismatch S zm.serial)
          (pre.map Rdata.zonemd ++ Rdata.zonemd zm :: tail) := by
  induction pre with
  | nil =>
    intro dict _ hzm
    rw [List.map_nil, List.nil_append, validateLoop]
    rw [if_pos (show S ≠ zm.serial from fun h => hzm h.symm)]
  | cons m rest ih =>
    intro dict h1 hzm
    have hm := h1 m (by simp)
    rw [List.map_cons, List.cons_append, validateLoop]
    rw [if_neg (show ¬ S ≠ m.serial from fun hne => hne hm.2.symm), if_pos hm.1]
    rw [ih dict (fun m' hm' => h1 m' (List.mem_cons_of_mem m hm')) hzm]

/-- Claim C5 (amended): validate never produces the
`(false, "no ZONEMD record found")` outcome on any zone — that message appears
nowhere in the code.  When the apex has no ZONEMD record-set, or a nonempty
one whose members all have a scheme other than 1 and serials matching the SOA,
validate raises an exception — KeyError from find_rdataset, KeyError from the
restore loop, or the unknown-algorithm error; and because the serial check
precedes the scheme check, a member of such a no-scheme-1 set whose serial
mismatches instead makes validate return the serial-mismatch tuple. -/
theorem C5_theorem :
    (∀ (z : Zone) (p : Bool × Reason) (zr : Zone),
        validate_zonemd z = Except.ok (p, zr) → p.2 ≠ Reason.noZonemdRecord) ∧
      (∀ (z : Zone) (apex : Name),
        zoneApex z = some apex →
        (z.get_rdataset apex 63 = none ∨
          (∃ soaSet' soaItem S zmdSet members,
            z.get_rdataset apex 6 = some soaSet' ∧
            soaSet'.items.head? = some soaItem ∧
            soaItem.serialOf = some S ∧
            z.find_rdataset apex 63 = Except.ok zmdSet ∧
            zmdSet.items = List.map Rdata.zonemd members ∧
            members ≠ [] ∧
            (∀ m ∈ members, m.scheme ≠ 1 ∧ m.serial = S))) →
        ∃ e, validate_zonemd z = Except.error e) ∧
      (∀ (z : Zone) (apex : Name) (soaSet' : Rdataset) (soaItem : Rdata) (S : Nat)
          (zmdSet : Rdataset) (pre : List ZONEMD) (zm : ZONEMD) (tail : List Rdata),
        zoneApex z = some apex →
        z.get_rdataset apex 6 = some soaSet' →
        soaSet'.items.head? = some soaItem →
        soaItem.serialOf = some S →
        z.find_rdataset apex 63 = Except.ok zmdSet →
        zmdSet.items = pre.map Rdata.zonemd ++ Rdata.zonemd zm :: tail →
        (∀ m ∈ pre, m.scheme ≠ 1 ∧ m.serial = S) →
        zm.serial ≠ S →
        (validate_zonemd z).toOption.map Prod.fst =
          some (false, Reason.serialMismatch S zm.serial)) := by
  refine ⟨?_, ?_, ?_⟩
  · intro z p zr h
    simp only [validate_zonemd] at h
    cases hA : zoneApex z with
    | none => simp only [hA] at h; cases h
    | some apex =>
    simp only [hA] at h
    cases hB : z.get_rdataset apex 6 with
    | none => simp only [hB] at h; cases h
    | some soaSet' =>
    simp only [hB] at h
    cases hC : soaSet'.items.head? with
    | none => simp only [hC] at h; cases h
    | some soaItem =>
    simp only [hC] at h
    cases hD : soaItem.serialOf with
    | none => simp only [hD] at h; cases h
    | some S =>
    simp only [hD] at h
    cases hE : z.find_rdataset apex 63 with
    | error e => simp only [hE] at h; cases h
    | ok zmdSet =>
    simp only [hE] at h
    cases hL : validateLoop S [] zmdSet.items with
    | err e => simp only [hL] at h; cases h
    | early r its =>
      simp only [hL, Except.ok.injEq, Prod.mk.injEq] at h
      obtain ⟨hp, -⟩ := h
      subst hp
      exact validateLoop_reason S zmdSet.items [] r its hL
    | done dict its =>
    simp only [hL] at h
    cases hG : its.getLast? with
    | none => simp only [hG] at h; cases h
    | some lastItem =>
    simp only [hG] at h
    cases hH : lastItem.algorithmOf with
    | none => simp only [hH] at h; cases h
    | some lastAlg =>
    simp only [hH] at h
    cases hI : calculate_zonemd (setZonemdItems z apex.lowerKey its) lastAlg with
    | error e => simp only [hI] at h; cases h
    | ok digest =>
    simp only [hI] at h
    cases hJ : restoreItems dict its with
    | error e => simp only [hJ] at h; cases h
    | ok restored =>
    simp only [hJ] at h
    cases hK : dictGet dict lastAlg with
    | none => simp only [hK] at h; cases h
    | some stored =>
    simp only [hK] at h
    by_cases hd : digest ≠ stored
    · rw [if_pos hd] at h
      simp only [Except.ok.injEq, Prod.mk.injEq] at h
      obtain ⟨hp, -⟩ := h
      subst hp
      simp
    · rw [if_neg hd] at h
      simp only [Except.ok.injEq, Prod.mk.injEq] at h
      obtain ⟨hp, -⟩ := h
      subst hp
      simp
  · intro z apex h1 hcase
    rcases hcase with hA | ⟨soaSet', soaItem, S, zmdSet, members, h2, h3, h4, h5, h6, hne, hsch⟩
    · cases h2 : z.get_rdataset apex 6 with
      | none => exact ⟨Err.attributeError, by simp only [validate_zonemd, h1, h2]⟩
      | some soaSet' =>
        cases h3 : soaSet'.items.head? with
        | none => exact ⟨Err.indexError, by simp only [validate_zonemd, h1, h2, h3]⟩
        | some soaItem =>
          cases h4 : soaItem.serialOf with
          | none => exact ⟨Err.attributeError, by simp only [validate_zonemd, h1, h2, h3, h4]⟩
          | some S =>
            have h5 : z.find_rdataset apex 63 = Except.error Err.keyError := by
              unfold Zone.find_rdataset
              rw [hA]
            exact ⟨Err.keyError, by simp only [validate_zonemd, h1, h2, h3, h4, h5]⟩
    · have hloop := validateLoop_skip S members [] hsch
      obtain ⟨mLast, h9⟩ := Option.isSome_iff_exists.mp (List.getLast?_isSome.mpr hne)
      have hlast : (List.map Rdata.zonemd members).getLast? = some (Rdata.zonemd mLast) := by
        rw [List.getLast?_map, h9]; rfl
      have hres : restoreItems [] (List.map Rdata.zonemd members) = Except.error Err.keyError := by
        cases members with
        | nil => exact absurd rfl hne
        | cons m0 rest => rfl
      by_cases halg : mLast.algorithm = 1 ∨ mLast.algorithm = 2
      · refine ⟨Err.keyError, ?_⟩
        simp only [validate_zonemd, h1, h2, h3, h4, h5, h6, hloop, hlast, Rdata.algorithmOf,
          calculate_zonemd]
        rw [if_pos halg]
        simp only [hres]
      · refine ⟨Err.unknownAlgorithm, ?_⟩
        simp only [validate_zonemd, h1, h2, h3, h4, h5, h6, hloop, hlast, Rdata.algorithmOf,
          calculate_zonemd]
        rw [if_neg halg]
  · intro z apex soaSet' soaItem S zmdSet pre zm tail h1 h2 h3 h4 h5 h6 h7 h9
    have hloop := validateLoop_serial_skip S pre zm tail [] h7 h9
    simp only [validate_zonemd, h1, h2, h3, h4, h5, h6, hloop]
    rfl

/-- Claim C5 witness: the serial-mismatch tuple at `zC6` is not the no-record
outcome, the no-record-set zone and the all-scheme-2 serial-matching zone
raise, and the no-scheme-1 serial-mismatching zone returns the tuple. -/
theorem C5_witness :
    ((false, Reason.serialMismatch 1 2).2 ≠ Reason.noZonemdRecord) ∧
      (zC5a.get_rdataset nameE 63 = none ∧ (∃ e, validate_zonemd zC5a = Except.error e)) ∧
      (∃ e, validate_zonemd zC5b = Except.error e) ∧
      (validate_zonemd zC6).toOption.map Prod.fst = some (false, Reason.serialMismatch 1 2) :=
  ⟨C5_theorem.1 zC6 (false, Reason.serialMismatch 1 2) zC6 (by decide),
    ⟨by decide, C5_theorem.2.1 zC5a nameE (by decide) (Or.inl (by decide))⟩,
    C5_theorem.2.1 zC5b nameE (by decide)
      (Or.inr ⟨soaSet, Rdata.soa 1 [7, 7], 1, ⟨1, 63, 0, 300, [Rdata.zonemd ⟨1, 2, 1, [9]⟩]⟩,
        [⟨1, 2, 1, [9]⟩], by decide⟩),
    C5_theorem.2.2 zC6 nameE soaSet (Rdata.soa 1 [7, 7]) 1
      ⟨1, 63, 0, 300, [Rdata.zonemd ⟨2, 7, 1, []⟩]⟩ [] ⟨2, 7, 1, []⟩ []
      (by decide) (by decide) (by decide) (by decide) (by decide) (by decide) (by decide)
      (by decide)⟩

/-- Lexicographic combination keeps a decided first component. -/
theorem then_of_ne {o : Ordering} (p : Ordering) (h : o ≠ Ordering.eq) : o.then p = o := by
  cases o with
  | lt => rfl
  | eq => exact absurd rfl h
  | gt => rfl

/-- A record-set compares equal to itself. -/
theorem rdsetCmp_self (a : Rdataset) : rdsetCmp a a = Ordering.eq := by
  unfold rdsetCmp
  rw [natCmp_self, natCmp_self, bytesCmp_self]
  rfl

/-- Comparisons between record-sets of different types are decided by the
type alone, whatever happens to their members. -/
theorem rdsetCmp_congr_ne {a b a' b' : Rdataset} (h : a.rdtype ≠ b.rdtype)
    (ha : a'.rdtype = a.rdtype) (hb : b'.rdtype = b.rdtype) :
    rdsetCmp a' b' = rdsetCmp a b := by
  unfold rdsetCmp
  rw [ha, hb]
  have hne : natCmp a.rdtype b.rdtype ≠ Ordering.eq := fun hc => h ((natCmp_eq_iff _ _).mp hc)
  rw [then_of_ne _ hne, then_of_ne _ hne]

/-- In a list where at most one element satisfies a predicate, any two
satisfying members coincide. -/
theorem countP_le_one_pairs {p : α → Bool} (l : List α) (h : l.countP p ≤ 1) :
    ∀ a ∈ l, ∀ b ∈ l, p a = true → p b = true → a = b := by
  induction l with
  | nil => intro a ha; simp at ha
  | cons x xs ih =>
    intro a ha b hb hpa hpb
    rw [List.countP_cons] at h
    by_cases hx : p x = true
    · rw [if_pos hx] at h
      have hnone := List.countP_eq_zero.mp (by omega : xs.countP p = 0)
      rcases List.mem_cons.mp ha with rfl | ha'
      · rcases List.mem_cons.mp hb with rfl | hb'
        · rfl
        · exact absurd hpb (hnone b hb')
      · exact absurd hpa (hnone a ha')
    · rw [if_neg hx, Nat.add_zero] at h
      rcases List.mem_cons.mp ha with rfl | ha'
      · exact absurd hpa hx
      · rcases List.mem_cons.mp hb with rfl | hb'
        · exact absurd hpb hx
        · exact ih h a ha' b hb' hpa hpb

/-- Mapping a function that fixes every member is the identity. -/
theorem map_id_of_mem {f : α → α} (l : List α) (h : ∀ x ∈ l, f x = x) : l.map f = l := by
  induction l with
  | nil => rfl
  | cons x xs ih => rw [List.map_cons, h x (by simp), ih (fun y hy => h y (by simp [hy]))]

/-- Insertion sort commutes with a map that preserves all pairwise
comparisons among the list's elements. -/
theorem insertionSort_map_congr (r : α → α → Prop) [DecidableRel r] (f : α → α)
    (l : List α) (hc : ∀ a ∈ l, ∀ b ∈ l, (r (f a) (f b) ↔ r a b)) :
    List.insertionSort r (l.map f) = (List.insertionSort r l).map f := by
  induction l with
  | nil => rfl
  | cons x xs ih =>
    rw [List.map_cons, List.insertionSort, List.insertionSort]
    rw [ih (fun a ha b hb => hc a (List.mem_cons_of_mem x ha) b (List.mem_cons_of_mem x hb))]
    exact (List.map_orderedInsert r r f (List.insertionSort r xs) x
      (fun a ha =>
        (hc a (List.mem_cons_of_mem x ((List.mem_insertionSort r).mp ha)) x (by simp)).symm)
      (fun a ha =>
        (hc x (by simp) a (List.mem_cons_of_mem x ((List.mem_insertionSort r).mp ha))).symm)).symm

/-- Replacing the members of the (unique) type-63 record-set at the apex node
does not change the node's contribution: the set is skipped either way, and
all comparisons with other sets are decided by the record type. -/
theorem nodeContrib_map63 (o : Name) (sets : List Rdataset) (its : List Rdata)
    (h1 : sets.countP (fun rs => decide (rs.rdtype = 63)) ≤ 1) :
    nodeContrib o o.lowerKey
        ⟨sets.map (fun rs => if rs.rdtype = 63 then { rs with items := its } else rs)⟩ =
      nodeContrib o o.lowerKey ⟨sets⟩ := by
  have huniq := countP_le_one_pairs sets h1
  have hftype : ∀ rs : Rdataset,
      (if rs.rdtype = 63 then ({ rs with items := its } : Rdataset) else rs).rdtype = rs.rdtype := by
    intro rs; by_cases h63 : rs.rdtype = 63 <;> simp [h63]
  have hcong : ∀ a ∈ sets, ∀ b ∈ sets,
      (cmpLe rdsetCmp (if a.rdtype = 63 then { a with items := its } else a)
          (if b.rdtype = 63 then { b with items := its } else b) ↔ cmpLe rdsetCmp a b) := by
    intro a ha b hb
    by_cases hty : a.rdtype = b.rdtype
    · by_cases h63 : a.rdtype = 63
      · have hb63 : b.rdtype = 63 := by rw [← hty]; exact h63
        have hab : a = b := huniq a ha b hb (by simp [h63]) (by simp [hb63])
        subst hab
        unfold cmpLe
        rw [rdsetCmp_self, rdsetCmp_self]
      · have hb63 : b.rdtype ≠ 63 := fun hh => h63 (by rw [hty, hh])
        simp [h63, hb63]
    · have := rdsetCmp_congr_ne hty (hftype a) (hftype b)
      unfold cmpLe
      rw [this]
  unfold nodeContrib
  rw [insertionSort_map_congr (cmpLe rdsetCmp) _ sets hcong]
  rw [List.flatMap_map]
  refine congrArg (List.flatMap (List.insertionSort (cmpLe rdsetCmp) sets)) (funext fun rs => ?_)
  by_cases h63 : rs.rdtype = 63
  · have hskip1 : skipAtApex o o.lowerKey
        (if rs.rdtype = 63 then ({ rs with items := its } : Rdataset) else rs) = true := by
      simp [skipAtApex, h63]
    have hskip2 : skipAtApex o o.lowerKey rs = true := by
      simp [skipAtApex, h63]
    rw [if_pos hskip1, if_pos hskip2]
  · rw [if_neg h63]

/-- Reading off the shape guaranteed by `apexZonemdUnique`. -/
theorem apexZonemdUnique_spec (z : Zone) (h : apexZonemdUnique z = true) :
    ∀ nd, z.findByKey z.origin.lowerKey = some nd →
      nd.rdatasets.countP (fun rs => decide (rs.rdtype = 63)) ≤ 1 ∧
      ∀ rs ∈ nd.rdatasets, rs.rdtype = 63 → rs.rdclass = 1 ∧ rs.covers = 0 := by
  intro nd hnd
  unfold apexZonemdUnique at h
  rw [hnd] at h
  rw [Bool.and_eq_true] at h
  refine ⟨of_decide_eq_true h.1, fun rs hrs h63 => ?_⟩
  have := List.all_eq_true.mp h.2 rs hrs
  rw [if_pos h63] at this
  exact of_decide_eq_true this

/-- Under the unique-apex-ZONEMD shape, the in-place member replacement is a
map over the record-set list. -/
theorem setItemsInSets_eq_map (sets : List Rdataset) (its : List Rdata)
    (hcount : sets.countP (fun rs => decide (rs.rdtype = 63)) ≤ 1)
    (hshape : ∀ rs ∈ sets, rs.rdtype = 63 → rs.rdclass = 1 ∧ rs.covers = 0) :
    setItemsInSets sets its =
      sets.map (fun rs => if rs.rdtype = 63 then { rs with items := its } else rs) := by
  induction sets with
  | nil => rfl
  | cons s rest ih =>
    rw [setItemsInSets, List.map_cons]
    by_cases hc : s.rdclass = 1 ∧ s.rdtype = 63 ∧ s.covers = 0
    · rw [if_pos hc, if_pos hc.2.1]
      rw [List.countP_cons, if_pos (by simp [hc.2.1])] at hcount
      have hnone := List.countP_eq_zero.mp (by omega : rest.countP
        (fun rs => decide (rs.rdtype = 63)) = 0)
      rw [map_id_of_mem rest (fun x hx => by
        have hne : x.rdtype ≠ 63 := fun hh => hnone x hx (by simp [hh])
        simp [hne])]
    · have hs63 : s.rdtype ≠ 63 := fun hh =>
        hc ⟨(hshape s (by simp) hh).1, hh, (hshape s (by simp) hh).2⟩
      rw [if_neg hc, if_neg hs63]
      rw [List.countP_cons, if_neg (by simp [hs63]), Nat.add_zero] at hcount
      rw [ih hcount (fun rs hrs h63 => hshape rs (by simp [hrs]) h63)]

/-- Replacing the apex ZONEMD record-set's members does not change the digest
stream: the set is excluded from the stream at the apex. -/
theorem zonemdStream_setItems (z : Zone) (its : List Rdata)
    (h : apexZonemdUnique z = true) :
    zonemdStream (setZonemdItems z z.origin.lowerKey its) = zonemdStream z := by
  unfold zonemdStream
  rw [keys_setZonemdItems]
  refine congrArg (List.flatMap (List.insertionSort nameLe z.keys)) (funext fun n => ?_)
  unfold nameContrib
  rw [show (setZonemdItems z z.origin.lowerKey its).origin = z.origin from rfl]
  rw [findByKey_setZonemd]
  by_cases hk : n.lowerKey = z.origin.lowerKey
  · rw [if_pos hk, hk]
    cases hf : z.findByKey z.origin.lowerKey with
    | none => rfl
    | some nd =>
      obtain ⟨hcount, hshape⟩ := apexZonemdUnique_spec z h nd hf
      show nodeContrib z.origin z.origin.lowerKey ⟨setItemsInSets nd.rdatasets its⟩ =
        nodeContrib z.origin z.origin.lowerKey nd
      rw [setItemsInSets_eq_map nd.rdatasets its hcount hshape]
      exact nodeContrib_map63 z.origin nd.rdatasets its hcount
  · rw [if_neg hk]

/-- Claim C3 (amended): the apex ZONEMD record-set is excluded from the
hashed stream, so the digest computed by calculate (hence by update) does not
depend on the stored (placeholder) digest bytes — replacing the apex ZONEMD
members by anything leaves the computed digest unchanged. -/
theorem C3_theorem (z : Zone) (its : List Rdata) (alg : Nat)
    (h : apexZonemdUnique z = true) :
    calculate_zonemd (setZonemdItems z z.origin.lowerKey its) alg = calculate_zonemd z alg := by
  unfold calculate_zonemd
  rw [zonemdStream_setItems z its h]

/-- Claim C3 witness: overwriting the stored digest `[]` with `[9]` leaves the
computed digest unchanged. -/
theorem C3_witness :
    apexZonemdUnique zC3a = true ∧
      calculate_zonemd (setZonemdItems zC3a zC3a.origin.lowerKey [Rdata.zonemd ⟨1, 1, 1, [9]⟩]) 1 =
        calculate_zonemd zC3a 1 :=
  ⟨by decide, C3_theorem zC3a [Rdata.zonemd ⟨1, 1, 1, [9]⟩] 1 (by decide)⟩

/-- Claim C2 (amended): validate runs the digest computation exactly once per
call — for the algorithm of the LAST apex ZONEMD member — and compares only
that member's stored digest; it returns `(true, "")` exactly when that single
comparison matches, regardless of the other members' digests.  (As stated the
claim is false: with k distinct algorithms there is one computation and one
comparison, not k — see the counterexample.) -/
theorem C2_theorem (z : Zone) (apex : Name) (soaSet' : Rdataset) (soaItem : Rdata) (S : Nat)
    (zmdSet : Rdataset) (members : List ZONEMD) (mLast : ZONEMD)
    (h1 : zoneApex z = some apex)
    (h2 : z.get_rdataset apex 6 = some soaSet')
    (h3 : soaSet'.items.head? = some soaItem)
    (h4 : soaItem.serialOf = some S)
    (h5 : z.find_rdataset apex 63 = Except.ok zmdSet)
    (h6 : zmdSet.items = members.map Rdata.zonemd)
    (h7 : ∀ m ∈ members, m.scheme = 1 ∧ m.serial = S)
    (h8 : (members.map ZONEMD.algorithm).Nodup)
    (h9 : members.getLast? = some mLast)
    (h10 : mLast.algorithm = 1 ∨ mLast.algorithm = 2)
    (h11 : apex.lowerKey = z.origin.lowerKey)
    (h12 : apexZonemdUnique z = true) :
    ∃ d, calculate_zonemd z mLast.algorithm = Except.ok d ∧
      validate_zonemd z =
        Except.ok
          ((if d = mLast.digest then (true, Reason.noError)
            else (false, Reason.digestMismatch mLast.digest d)), z) := by
  have hloop := validateLoop_all1 S members [] h7 (by simpa using h8)
  have hlast : (members.map substMember).getLast? = some (substMember mLast) := by
    rw [List.getLast?_map, h9]; rfl
  have hrestore := restoreItems_ok (digestPairs members) members (dictGet_digestPairs members h8)
  have hstored := dictGet_digestPairs members h8 mLast (getLast?_mem' h9)
  have hset : setZonemdItems z apex.lowerKey zmdSet.items = z :=
    setZonemd_self z apex zmdSet (find_rdataset_ok h5)
  have hz' : calculate_zonemd (setZonemdItems z apex.lowerKey (members.map substMember))
      mLast.algorithm = Except.ok (hashDigest mLast.algorithm (zonemdStream z)) := by
    rw [h11]
    unfold calculate_zonemd
    rw [zonemdStream_setItems z _ h12, if_pos h10]
  have hcalc : calculate_zonemd z mLast.algorithm =
      Except.ok (hashDigest mLast.algorithm (zonemdStream z)) := by
    unfold calculate_zonemd
    rw [if_pos h10]
  refine ⟨hashDigest mLast.algorithm (zonemdStream z), hcalc, ?_⟩
  simp only [validate_zonemd, h1, h2, h3, h4, h5, h6, hloop, List.nil_append, hlast,
    algorithmOf_substMember, hz', hrestore, hstored]
  rw [← h6, hset]
  by_cases hd : hashDigest mLast.algorithm (zonemdStream z) = mLast.digest
  · rw [if_neg (show ¬ hashDigest mLast.algorithm (zonemdStream z) ≠ mLast.digest from
      fun hne => hne hd), if_pos hd]
  · rw [if_pos hd, if_neg hd]

/-- Claim C2 witness: the single computation-and-comparison shape at a
concrete zone. -/
theorem C2_witness :
    apexZonemdUnique zWit = true ∧
      ∃ d, calculate_zonemd zWit 1 = Except.ok d ∧
        validate_zonemd zWit =
          Except.ok
            ((if d = [4] then (true, Reason.noError)
              else (false, Reason.digestMismatch [4] d)), zWit) :=
  ⟨by decide, C2_theorem zWit nameE soaSet (Rdata.soa 1 [7, 7]) 1
    ⟨1, 63, 0, 300, [Rdata.zonemd ⟨1, 1, 1, [4]⟩]⟩ [⟨1, 1, 1, [4]⟩] ⟨1, 1, 1, [4]⟩
    (by decide) (by decide) (by decide) (by decide) (by decide) (by decide) (by decide)
    (by decide) (by decide) (by decide) (by decide) (by decide)⟩

/-- Swap distributes over the lexicographic combination. -/
theorem swap_then (o p : Ordering) : (o.then p).swap = o.swap.then p.swap := by
  cases o <;> rfl

/-- The lexicographic combination is eq exactly when both parts are. -/
theorem then_eq_iff (o p : Ordering) :
    o.then p = Ordering.eq ↔ o = Ordering.eq ∧ p = Ordering.eq := by
  cases o <;> simp [Ordering.then]

/-- The strict natural comparator agrees with the order. -/
theorem natCmp_lt_iff (a b : Nat) : natCmp a b = Ordering.lt ↔ a < b := by
  unfold natCmp
  split_ifs <;> simp <;> omega

/-- The natural comparator satisfies the comparator laws. -/
theorem natCmp_laws : CmpLaws natCmp := by
  refine ⟨natCmp_swap, ?_, ?_⟩
  · intro x y z h1 h2
    rw [natCmp_lt_iff] at h1 h2 ⊢
    omega
  · intro x y h z
    rw [(natCmp_eq_iff x y).mp h]

/-- Both orders induced by a lawful comparator relate any two elements. -/
theorem cmpLe_total (c : α → α → Ordering) (hswap : ∀ x y, c y x = (c x y).swap) (a b : α) :
    cmpLe c a b ∨ cmpLe c b a := by
  unfold cmpLe
  cases h : c a b with
  | lt => left; simp
  | eq => left; simp
  | gt =>
    right
    rw [hswap a b, h]
    simp [Ordering.swap]

/-- Mutually le elements compare equal under a lawful comparator. -/
theorem cmpLe_antisymm_eq (c : α → α → Ordering) (hswap : ∀ x y, c y x = (c x y).swap)
    {a b : α} (h1 : cmpLe c a b) (h2 : cmpLe c b a) : c a b = Ordering.eq := by
  unfold cmpLe at h1 h2
  rw [hswap a b] at h2
  cases h : c a b with
  | lt => rw [h] at h2; exact absurd rfl h2
  | eq => rfl
  | gt => rw [h] at h1; exact absurd rfl h1

/-- The non-strict order of a lawful comparator is transitive. -/
theorem cmpLe_trans (c : α → α → Ordering) (hc : CmpLaws c) {a b d : α}
    (h1 : cmpLe c a b) (h2 : cmpLe c b d) : cmpLe c a d := by
  unfold cmpLe at h1 h2 ⊢
  cases hab : c a b with
  | gt => exact absurd hab h1
  | eq => rw [hc.eq_left hab d]; exact h2
  | lt =>
    cases hbd : c b d with
    | gt => exact absurd hbd h2
    | lt => rw [hc.lt_trans hab hbd]; simp
    | eq =>
      have hdb : c d b = Ordering.eq := by rw [hc.swap b d, hbd]; rfl
      have : c d a = c b a := hc.eq_left hdb a
      have hba : c b a = Ordering.gt := by rw [hc.swap a b, hab]; rfl
      have had : c a d = ((c a d).swap).swap := by cases c a d <;> rfl
      rw [had, ← hc.swap a d, this, hba]
      simp [Ordering.swap]

/-- Comparator laws transfer along a key function. -/
theorem CmpLaws.comap {c : β → β → Ordering} (hc : CmpLaws c) (k : α → β) :
    CmpLaws (fun a b => c (k a) (k b)) := by
  refine ⟨fun x y => hc.swap (k x) (k y), ?_, ?_⟩
  · intro x y z h1 h2
    exact hc.lt_trans h1 h2
  · intro x y h z
    exact hc.eq_left h (k z)

/-- Comparator laws are preserved by lexicographic combination. -/
theorem CmpLaws.combine {c₁ c₂ : α → α → Ordering} (h1 : CmpLaws c₁) (h2 : CmpLaws c₂) :
    CmpLaws (fun a b => (c₁ a b).then (c₂ a b)) := by
  refine ⟨?_, ?_, ?_⟩
  · intro x y
    rw [h1.swap x y, h2.swap x y, swap_then]
  · intro x y z hxy hyz
    simp only at hxy hyz ⊢
    cases hab : c₁ x y with
    | gt => rw [hab] at hxy; simp [Ordering.then] at hxy
    | lt =>
      cases hbd : c₁ y z with
      | lt => rw [then_of_ne _ (by rw [h1.lt_trans hab hbd]; simp),
          h1.lt_trans hab hbd]
      | eq =>
        have hzy : c₁ z y = Ordering.eq := by rw [h1.swap y z, hbd]; rfl
        have hzx : c₁ z x = c₁ y x := h1.eq_left hzy x
        have hyx : c₁ y x = Ordering.gt := by rw [h1.swap x y, hab]; rfl
        have hxz : c₁ x z = Ordering.lt := by
          have hs : c₁ x z = ((c₁ x z).swap).swap := by cases c₁ x z <;> rfl
          rw [hs, ← h1.swap x z, hzx, hyx]
          rfl
        rw [then_of_ne _ (by rw [hxz]; simp), hxz]
      | gt => rw [hbd] at hyz; simp [Ordering.then] at hyz
    | eq =>
      rw [hab] at hxy
      have hxy2 : c₂ x y = Ordering.lt := hxy
      cases hbd : c₁ y z with
      | gt => rw [hbd] at hyz; simp [Ordering.then] at hyz
      | lt =>
        have hxz : c₁ x z = c₁ y z := h1.eq_left hab z
        rw [then_of_ne _ (by rw [hxz, hbd]; simp), hxz, hbd]
      | eq =>
        rw [hbd] at hyz
        have hyz2 : c₂ y z = Ordering.lt := hyz
        have hxz : c₁ x z = Ordering.eq := by rw [h1.eq_left hab z, hbd]
        rw [hxz]
        exact h2.lt_trans hxy2 hyz2
  · intro x y h z
    simp only at h ⊢
    rw [then_eq_iff] at h
    rw [h1.eq_left h.1 z, h2.eq_left h.2 z]

/-- The byte-string comparator satisfies the comparator laws. -/
theorem bytesCmp_laws : CmpLaws bytesCmp := by
  refine ⟨bytesCmp_swap, ?_, ?_⟩
  · intro x y z
    show listCmp natCmp x y = _ → listCmp natCmp y z = _ → listCmp natCmp x z = _
    induction x generalizing y z with
    | nil =>
      intro h1 h2
      cases y with
      | nil => simp [listCmp] at h1
      | cons b bs =>
        cases z with
        | nil => simp [listCmp] at h2
        | cons d ds => rfl
    | cons a as ih =>
      intro h1 h2
      cases y with
      | nil => simp [listCmp] at h1
      | cons b bs =>
        cases z with
        | nil => simp [listCmp] at h2
        | cons d ds =>
          rw [listCmp] at h1 h2 ⊢
          cases hab : natCmp a b with
          | gt => rw [hab] at h1; simp at h1
          | lt =>
            cases hbd : natCmp b d with
            | gt => rw [hbd] at h2; simp at h2
            | lt => rw [natCmp_laws.lt_trans hab hbd]
            | eq =>
              have hbd' : b = d := (natCmp_eq_iff b d).mp hbd
              rw [← hbd', hab]
          | eq =>
            have hab' : a = b := (natCmp_eq_iff a b).mp hab
            rw [hab] at h1
            cases hbd : natCmp b d with
            | gt => rw [hbd] at h2; simp at h2
            | lt => rw [hab', hbd]
            | eq =>
              rw [hbd] at h2
              rw [hab', hbd]
              exact ih h1 h2
  · intro x y h z
    have hxy : x = y := (bytesCmp_eq_iff x y).mp h
    rw [hxy]

/-- The name-key comparator satisfies the comparator laws. -/
theorem keyCmp_laws : CmpLaws keyCmp := by
  refine ⟨keyCmp_swap, ?_, ?_⟩
  · intro x y z
    show listCmp bytesCmp x y = _ → listCmp bytesCmp y z = _ → listCmp bytesCmp x z = _
    induction x generalizing y z with
    | nil =>
      intro h1 h2
      cases y with
      | nil => simp [listCmp] at h1
      | cons b bs =>
        cases z with
        | nil => simp [listCmp] at h2
        | cons d ds => rfl
    | cons a as ih =>
      intro h1 h2
      cases y with
      | nil => simp [listCmp] at h1
      | cons b bs =>
        cases z with
        | nil => simp [listCmp] at h2
        | cons d ds =>
          rw [listCmp] at h1 h2 ⊢
          cases hab : bytesCmp a b with
          | gt => rw [hab] at h1; simp at h1
          | lt =>
            cases hbd : bytesCmp b d with
            | gt => rw [hbd] at h2; simp at h2
            | lt => rw [bytesCmp_laws.lt_trans hab hbd]
            | eq =>
              have hbd' : b = d := (bytesCmp_eq_iff b d).mp hbd
              rw [← hbd', hab]
          | eq =>
            have hab' : a = b := (bytesCmp_eq_iff a b).mp hab
            rw [hab] at h1
            cases hbd : bytesCmp b d with
            | gt => rw [hbd] at h2; simp at h2
            | lt => rw [hab', hbd]
            | eq =>
              rw [hbd] at h2
              rw [hab', hbd]
              exact ih h1 h2
  · intro x y h z
    have hxy : x = y := (keyCmp_eq_iff x y).mp h
    rw [hxy]

/-- The record-set comparator satisfies the comparator laws. -/
theorem rdsetCmp_laws : CmpLaws rdsetCmp := by
  have h1 : CmpLaws (fun a b : Rdataset => natCmp a.rdtype b.rdtype) :=
    natCmp_laws.comap Rdataset.rdtype
  have h2 : CmpLaws (fun a b : Rdataset => natCmp a.firstWire.length b.firstWire.length) :=
    natCmp_laws.comap (fun rs => rs.firstWire.length)
  have h3 : CmpLaws (fun a b : Rdataset => bytesCmp a.firstWire b.firstWire) :=
    bytesCmp_laws.comap Rdataset.firstWire
  exact h1.combine (h2.combine h3)

/-- A record-set comparison that is eq forces equal sort keys. -/
theorem rdsetCmp_eq_key {a b : Rdataset} (h : rdsetCmp a b = Ordering.eq) :
    rdsetKey a = rdsetKey b := by
  unfold rdsetCmp at h
  rw [then_eq_iff] at h
  obtain ⟨ht, h'⟩ := h
  rw [then_eq_iff] at h'
  obtain ⟨hl, hw⟩ := h'
  unfold rdsetKey
  rw [(natCmp_eq_iff _ _).mp ht, (natCmp_eq_iff _ _).mp hl, (bytesCmp_eq_iff _ _).mp hw]

/-- Two sorted lists that are permutations of each other coincide, given
antisymmetry on the elements of the first. -/
theorem eq_of_perm_of_sorted_on {r : α → α → Prop} :
    ∀ {l₁ l₂ : List α}, l₁.Perm l₂ → List.Sorted r l₁ → List.Sorted r l₂ →
      (∀ a ∈ l₁, ∀ b ∈ l₁, r a b → r b a → a = b) → l₁ = l₂ := by
  intro l₁
  induction l₁ with
  | nil =>
    intro l₂ p _ _ _
    exact p.nil_eq
  | cons a t ih =>
    intro l₂ p s₁ s₂ anti
    cases l₂ with
    | nil =>
      have := p.length_eq
      simp at this
    | cons b t₂ =>
      have hab : a = b := by
        by_cases h : a = b
        · exact h
        · have hbl : b ∈ a :: t := p.mem_iff.mpr (by simp)
          have hal : a ∈ b :: t₂ := p.subset (by simp)
          have hb' : b ∈ t := by
            rcases List.mem_cons.mp hbl with h' | h'
            · exact absurd h'.symm h
            · exact h'
          have ha' : a ∈ t₂ := by
            rcases List.mem_cons.mp hal with h' | h'
            · exact absurd h' h
            · exact h'
          exact anti a (by simp) b (by simp [hb'])
            (List.rel_of_sorted_cons s₁ b hb') (List.rel_of_sorted_cons s₂ a ha')
      subst hab
      rw [ih p.cons_inv (List.sorted_cons.mp s₁).2 (List.sorted_cons.mp s₂).2
        (fun x hx y hy hr hrr => anti x (by simp [hx]) y (by simp [hy]) hr hrr)]

/-- find? is stable under permutation when at most one element can match. -/
theorem find?_perm_unique {p : α → Bool} {l₁ l₂ : List α} (hperm : l₂.Perm l₁)
    (huniq : ∀ a ∈ l₁, ∀ b ∈ l₁, p a = true → p b = true → a = b) :
    l₂.find? p = l₁.find? p := by
  cases h1 : l₁.find? p with
  | none =>
    have hno := List.find?_eq_none.mp h1
    exact List.find?_eq_none.mpr (fun x hx => hno x (hperm.subset hx))
  | some x =>
    have hx : p x = true := List.find?_some h1
    have hxm : x ∈ l₁ := List.mem_of_find?_eq_some h1
    cases h2 : l₂.find? p with
    | none =>
      have hno := List.find?_eq_none.mp h2
      exact absurd hx (hno x (hperm.mem_iff.mpr hxm))
    | some y =>
      have hy : p y = true := List.find?_some h2
      have hym : y ∈ l₁ := hperm.subset (List.mem_of_find?_eq_some h2)
      rw [huniq y hym x hxm hy hx]

/-- Sorting member wires is permutation-invariant (byte strings compare
equal only when identical). -/
theorem sortedWires_perm (w₁ w₂ : List Bytes) (h : w₁.Perm w₂) :
    List.insertionSort (cmpLe bytesCmp) w₁ = List.insertionSort (cmpLe bytesCmp) w₂ := by
  have htot : ∀ a b : Bytes, cmpLe bytesCmp a b ∨ cmpLe bytesCmp b a := fun a b =>
    cmpLe_total bytesCmp bytesCmp_swap a b
  have htrans : ∀ (a b c : Bytes),
      cmpLe bytesCmp a b → cmpLe bytesCmp b c → cmpLe bytesCmp a c := fun a b c h1 h2 =>
    cmpLe_trans bytesCmp bytesCmp_laws h1 h2
  refine eq_of_perm_of_sorted_on ?_ (@List.sorted_insertionSort _ _ _ ⟨htot⟩ ⟨htrans⟩ w₁)
    (@List.sorted_insertionSort _ _ _ ⟨htot⟩ ⟨htrans⟩ w₂) ?_
  · exact (List.perm_insertionSort _ _).trans (h.trans (List.perm_insertionSort _ _).symm)
  · intro a _ b _ h1 h2
    exact (bytesCmp_eq_iff a b).mp (cmpLe_antisymm_eq bytesCmp bytesCmp_swap h1 h2)

/-- Claim C7 (amended).  First part: permuting the in-memory iteration order
of owner names (case-insensitively distinct) does not change the digest.
Second part: permuting the record-sets within a name with pairwise distinct
sort keys does not change that name's contribution.  Third part: permuting
the members of one record-set does not change the contribution when the
record types at that name are pairwise distinct.  (As stated the claim is
false: member permutation can change the digest when another record-set of
the same type is present, because the sort key uses the list's first member
— see the counterexample.) -/
theorem C7_theorem :
    (∀ (e₁ e₂ : List (Name × Node)) (o : Name) (alg : Nat),
        e₂.Perm e₁ → ((e₁.map Prod.fst).map Name.lowerKey).Nodup →
        calculate_zonemd ⟨e₂, o⟩ alg = calculate_zonemd ⟨e₁, o⟩ alg) ∧
    (∀ (o : Name) (k : List Bytes) (sets₁ sets₂ : List Rdataset),
        sets₂.Perm sets₁ → (sets₁.map rdsetKey).Nodup →
        nodeContrib o k ⟨sets₂⟩ = nodeContrib o k ⟨sets₁⟩) ∧
    (∀ (o : Name) (k : List Bytes) (pre post : List Rdataset) (rs : Rdataset)
        (its : List Rdata),
        its.Perm rs.items → ((pre ++ rs :: post).map Rdataset.rdtype).Nodup →
        nodeContrib o k ⟨pre ++ { rs with items := its } :: post⟩ =
          nodeContrib o k ⟨pre ++ rs :: post⟩) := by
  have htotN : ∀ a b : Name, nameLe a b ∨ nameLe b a := fun a b =>
    cmpLe_total keyCmp keyCmp_swap a.lowerKey b.lowerKey
  have htransN : ∀ (a b c : Name), nameLe a b → nameLe b c → nameLe a c := fun a b c h1 h2 =>
    cmpLe_trans keyCmp keyCmp_laws h1 h2
  have htotR : ∀ a b : Rdataset, cmpLe rdsetCmp a b ∨ cmpLe rdsetCmp b a := fun a b =>
    cmpLe_total rdsetCmp rdsetCmp_laws.swap a b
  have htransR : ∀ (a b c : Rdataset),
      cmpLe rdsetCmp a b → cmpLe rdsetCmp b c → cmpLe rdsetCmp a c := fun a b c h1 h2 =>
    cmpLe_trans rdsetCmp rdsetCmp_laws h1 h2
  refine ⟨?_, ?_, ?_⟩
  · intro e₁ e₂ o alg hperm hnd
    unfold calculate_zonemd
    have hstream : zonemdStream ⟨e₂, o⟩ = zonemdStream ⟨e₁, o⟩ := by
      unfold zonemdStream
      have hkperm : (e₂.map Prod.fst).Perm (e₁.map Prod.fst) := hperm.map Prod.fst
      have hsorteq : List.insertionSort nameLe (e₂.map Prod.fst) =
          List.insertionSort nameLe (e₁.map Prod.fst) := by
        refine eq_of_perm_of_sorted_on
          ((List.perm_insertionSort nameLe _).trans
            (hkperm.trans (List.perm_insertionSort nameLe _).symm))
          (@List.sorted_insertionSort Name nameLe _ ⟨htotN⟩ ⟨htransN⟩ _)
          (@List.sorted_insertionSort Name nameLe _ ⟨htotN⟩ ⟨htransN⟩ _) ?_
        intro a ha b hb h1 h2
        have hamem : a ∈ e₁.map Prod.fst :=
          hkperm.subset ((List.mem_insertionSort nameLe).mp ha)
        have hbmem : b ∈ e₁.map Prod.fst :=
          hkperm.subset ((List.mem_insertionSort nameLe).mp hb)
        have heq : keyCmp a.lowerKey b.lowerKey = Ordering.eq :=
          cmpLe_antisymm_eq keyCmp keyCmp_swap h1 h2
        exact List.inj_on_of_nodup_map hnd hamem hbmem ((keyCmp_eq_iff _ _).mp heq)
      show (List.insertionSort nameLe (e₂.map Prod.fst)).flatMap
          (fun n => nameContrib ⟨e₂, o⟩ n.lowerKey) = _
      rw [hsorteq]
      refine congrArg (List.flatMap _) (funext fun n => ?_)
      unfold nameContrib
      have hmm : (e₁.map (fun e => Name.lowerKey e.1)).Nodup := by
        rw [List.map_map] at hnd
        exact hnd
      have hfind : Zone.findByKey ⟨e₂, o⟩ n.lowerKey = Zone.findByKey ⟨e₁, o⟩ n.lowerKey := by
        unfold Zone.findByKey
        rw [find?_perm_unique hperm (fun a ha b hb hpa hpb =>
          List.inj_on_of_nodup_map hmm ha hb
            ((of_decide_eq_true hpa).trans (of_decide_eq_true hpb).symm))]
      rw [hfind]
    rw [hstream]
  · intro o k sets₁ sets₂ hperm hnd
    unfold nodeContrib
    have hsorteq : List.insertionSort (cmpLe rdsetCmp) sets₂ =
        List.insertionSort (cmpLe rdsetCmp) sets₁ := by
      refine eq_of_perm_of_sorted_on
        ((List.perm_insertionSort _ _).trans
          (hperm.trans (List.perm_insertionSort _ _).symm))
        (@List.sorted_insertionSort _ _ _ ⟨htotR⟩ ⟨htransR⟩ _)
        (@List.sorted_insertionSort _ _ _ ⟨htotR⟩ ⟨htransR⟩ _) ?_
      intro a ha b hb h1 h2
      have hamem : a ∈ sets₁ := hperm.subset ((List.mem_insertionSort _).mp ha)
      have hbmem : b ∈ sets₁ := hperm.subset ((List.mem_insertionSort _).mp hb)
      exact List.inj_on_of_nodup_map hnd hamem hbmem
        (rdsetCmp_eq_key (cmpLe_antisymm_eq rdsetCmp rdsetCmp_laws.swap h1 h2))
    rw [hsorteq]
  · intro o k pre post rs its hperm hnd
    have hl : (pre ++ rs :: post).Nodup := List.Nodup.of_map _ hnd
    have hrs_pre : rs ∉ pre := fun hmem =>
      List.disjoint_of_nodup_append hl hmem (by simp)
    have hrs_post : rs ∉ post :=
      (List.nodup_cons.mp ((List.nodup_append.mp hl).2.1)).1
    have hrdtype_inj := List.inj_on_of_nodup_map hnd
    have hmap : (pre ++ rs :: post).map
        (fun s => if s = rs then { rs with items := its } else s) =
        pre ++ { rs with items := its } :: post := by
      rw [List.map_append, List.map_cons]
      rw [map_id_of_mem pre (fun x hx => if_neg (fun hh : x = rs => hrs_pre (hh ▸ hx)))]
      rw [map_id_of_mem post (fun x hx => if_neg (fun hh : x = rs => hrs_post (hh ▸ hx)))]
      rw [if_pos rfl]
    have hftype : ∀ s : Rdataset,
        ((fun s => if s = rs then { rs with items := its } else s) s).rdtype = s.rdtype := by
      intro s
      by_cases hh : s = rs
      · subst hh; simp
      · simp [hh]
    have hcong : ∀ a ∈ pre ++ rs :: post, ∀ b ∈ pre ++ rs :: post,
        (cmpLe rdsetCmp ((fun s => if s = rs then { rs with items := its } else s) a)
          ((fun s => if s = rs then { rs with items := its } else s) b) ↔
          cmpLe rdsetCmp a b) := by
      intro a ha b hb
      by_cases hab : a = b
      · subst hab
        unfold cmpLe
        rw [rdsetCmp_self, rdsetCmp_self]
      · have hty : a.rdtype ≠ b.rdtype := fun hh => hab (hrdtype_inj ha hb hh)
        unfold cmpLe
        rw [rdsetCmp_congr_ne hty (hftype a) (hftype b)]
    rw [← hmap]
    unfold nodeContrib
    rw [insertionSort_map_congr (cmpLe rdsetCmp) _ _ hcong, List.flatMap_map]
    refine congrArg (List.flatMap _) (funext fun s => ?_)
    by_cases hs : s = rs
    · subst hs
      rw [if_pos rfl]
      have hskip : skipAtApex o k ({ s with items := its } : Rdataset) = skipAtApex o k s := rfl
      rw [hskip]
      by_cases hsk : skipAtApex o k s = true
      · rw [if_pos hsk, if_pos hsk]
      · rw [if_neg hsk, if_neg hsk]
        unfold rsetContrib
        have h1 : ({ s with items := its } : Rdataset).rdtype = s.rdtype := rfl
        have h2 : ({ s with items := its } : Rdataset).rdclass = s.rdclass := rfl
        have h3 : ({ s with items := its } : Rdataset).ttl = s.ttl := rfl
        have h4 : ({ s with items := its } : Rdataset).items = its := rfl
        rw [h1, h2, h3, h4, sortedWires_perm _ _ (hperm.map Rdata.toDigestable)]
    · rw [if_neg hs]

/-- Claim C7 witness: all three permutation invariances at concrete inputs. -/
theorem C7_witness :
    (([(nameWE, (⟨[]⟩ : Node)), (nameE, ⟨[]⟩)] : List (Name × Node)).Perm
        [(nameE, ⟨[]⟩), (nameWE, ⟨[]⟩)]) ∧
      calculate_zonemd ⟨[(nameWE, ⟨[]⟩), (nameE, ⟨[]⟩)], nameE⟩ 1 =
        calculate_zonemd ⟨[(nameE, ⟨[]⟩), (nameWE, ⟨[]⟩)], nameE⟩ 1 ∧
      nodeContrib nameE nameE.lowerKey
          ⟨[⟨1, 16, 0, 0, [Rdata.generic [2]]⟩, ⟨1, 16, 0, 0, [Rdata.generic [1]]⟩]⟩ =
        nodeContrib nameE nameE.lowerKey
          ⟨[⟨1, 16, 0, 0, [Rdata.generic [1]]⟩, ⟨1, 16, 0, 0, [Rdata.generic [2]]⟩]⟩ ∧
      nodeContrib nameE nameE.lowerKey
          ⟨[] ++ (⟨1, 17, 0, 0, [Rdata.generic [3], Rdata.generic [1]]⟩ : Rdataset) ::
            [⟨1, 16, 0, 0, [Rdata.generic [2]]⟩]⟩ =
        nodeContrib nameE nameE.lowerKey
          ⟨[] ++ (⟨1, 17, 0, 0, [Rdata.generic [1], Rdata.generic [3]]⟩ : Rdataset) ::
            [⟨1, 16, 0, 0, [Rdata.generic [2]]⟩]⟩ :=
  ⟨by decide, C7_theorem.1 _ _ nameE 1 (by decide) (by decide),
    C7_theorem.2.1 nameE nameE.lowerKey _ _ (by decide) (by decide),
    C7_theorem.2.2 nameE nameE.lowerKey [] [⟨1, 16, 0, 0, [Rdata.generic [2]]⟩]
      ⟨1, 17, 0, 0, [Rdata.generic [1], Rdata.generic [3]]⟩
      [Rdata.generic [3], Rdata.generic [1]] (by decide) (by decide)⟩
